import Mathlib

/-!
# Verification of the `cosmos-keys` wallet keystore and key utilities

Shallow embedding of `src/cosmos-keystore.ts` (password-protected wallet
storage over a browser `localStorage`-style key-value store) together with
spec-modelled versions of the address encoder and transaction signer whose
implementation file (`cosmos-keys.ts`) is not part of the source tree.

Modelling conventions:
* JavaScript strings are modelled as `List Char` (`Str`).
* `localStorage` is an association list from keys to string values; `setItem`
  replaces any existing binding, `getItem` returns the first binding.
* `JSON.stringify`/`JSON.parse` are modelled by a concrete executable codec
  over a `Json` value type restricted to the shapes this module ever
  serializes (strings, arrays, objects); the parser rejects anything else.
* The CryptoJS primitives (PBKDF2, AES-CBC) are external to the repository and
  are modelled as an abstract `CryptoPrims` bundle; a `WordArray` is identified
  with its hex rendering, so the random salt and iv enter `encrypt` as explicit
  hex-string parameters.
* Functions that run against the store return an `Except` result paired with
  the (possibly updated) store, so that partial writes before a thrown error
  would be observable.
-/

/-- JavaScript strings, modelled as lists of characters. -/
abbrev Str := List Char

/-- The `localStorage` backing store: an association list from keys to string
values.  `setItem` removes any previous binding and appends the new one. -/
abbrev Storage := List (Str × Str)

/-- `localStorage.getItem`: first binding for the key, if any. -/
def Storage.getItem (st : Storage) (k : Str) : Option Str :=
  (st.find? (fun p => p.1 == k)).map (fun p => p.2)

/-- `localStorage.removeItem`. -/
def Storage.removeItem (st : Storage) (k : Str) : Storage :=
  st.filter (fun p => p.1 != k)

/-- `localStorage.setItem`: replace any existing binding for `k` by `v`. -/
def Storage.setItem (st : Storage) (k v : Str) : Storage :=
  st.removeItem k ++ [(k, v)]

/-- JSON values, restricted to the three shapes the keystore serializes:
strings, arrays and objects (object fields keep insertion order, as
`JSON.stringify` does). -/
inductive Json where
  | str : Str → Json
  | arr : List Json → Json
  | obj : List (Str × Json) → Json

/-- `JSON.stringify` escaping for one character inside a string literal:
only `"` and `\` need a backslash (the keystore never serializes control
characters differently from `JSON.stringify`, which passes all other
code points through for our value shapes). -/
def escapeChar (ch : Char) : List Char :=
  if ch = '"' ∨ ch = '\\' then ['\\', ch] else [ch]

/-- Escape a whole string body. -/
def escapeStr (s : Str) : Str := (s.map escapeChar).flatten

mutual

/-- `JSON.stringify`: no whitespace, fields in insertion order. -/
def Json.stringify : Json → Str
  | .str s => '"' :: (escapeStr s ++ ['"'])
  | .arr xs => '[' :: (stringifyItems xs ++ [']'])
  | .obj fs => '\x7b' :: (stringifyFields fs ++ ['\x7d'])

/-- Comma-separated array elements. -/
def stringifyItems : List Json → Str
  | [] => []
  | [x] => Json.stringify x
  | x :: y :: xs => Json.stringify x ++ ',' :: stringifyItems (y :: xs)

/-- Comma-separated `"key":value` fields. -/
def stringifyFields : List (Str × Json) → Str
  | [] => []
  | [(k, v)] => '"' :: (escapeStr k ++ '"' :: ':' :: Json.stringify v)
  | (k, v) :: f :: fs =>
      ('"' :: (escapeStr k ++ '"' :: ':' :: Json.stringify v)) ++
        ',' :: stringifyFields (f :: fs)

end

/-- Parse a JSON string body after the opening quote; returns the unescaped
body and the input remaining after the closing quote. -/
def parseStrBody : List Char → Option (Str × List Char)
  | [] => none
  | ch :: rest =>
    if ch = '"' then some ([], rest)
    else if ch = '\\' then
      match rest with
      | [] => none
      | e :: rest2 =>
        if e = '"' ∨ e = '\\' then
          (parseStrBody rest2).map (fun p => (e :: p.1, p.2))
        else none
    else (parseStrBody rest).map (fun p => (ch :: p.1, p.2))

mutual

/-- Fuel-indexed JSON value parser (the fuel only has to dominate the nesting
structure of the value; `Json.parse` supplies the input length). -/
def parseVal : Nat → List Char → Option (Json × List Char)
  | 0, _ => none
  | _ + 1, [] => none
  | fuel + 1, ch :: rest =>
    if ch = '"' then (parseStrBody rest).map (fun p => (Json.str p.1, p.2))
    else if ch = '[' then
      if rest.head? = some ']' then some (Json.arr [], rest.tail)
      else (parseItems fuel rest).map (fun p => (Json.arr p.1, p.2))
    else if ch = '\x7b' then
      if rest.head? = some '\x7d' then some (Json.obj [], rest.tail)
      else (parseFields fuel rest).map (fun p => (Json.obj p.1, p.2))
    else none

/-- One or more comma-separated elements followed by `]`. -/
def parseItems : Nat → List Char → Option (List Json × List Char)
  | 0, _ => none
  | fuel + 1, l =>
    match parseVal fuel l with
    | none => none
    | some (v, rest) =>
      if rest.head? = some ']' then some ([v], rest.tail)
      else if rest.head? = some ',' then
        match parseItems fuel rest.tail with
        | none => none
        | some (vs, rest3) => some (v :: vs, rest3)
      else none

/-- One or more comma-separated `"key":value` fields followed by the closing
brace. -/
def parseFields : Nat → List Char → Option (List (Str × Json) × List Char)
  | 0, _ => none
  | fuel + 1, l =>
    if l.head? = some '"' then
      match parseStrBody l.tail with
      | none => none
      | some (k, rest2) =>
        if rest2.head? = some ':' then
          match parseVal fuel rest2.tail with
          | none => none
          | some (v, rest4) =>
            if rest4.head? = some '\x7d' then some ([(k, v)], rest4.tail)
            else if rest4.head? = some ',' then
              match parseFields fuel rest4.tail with
              | none => none
              | some (fs, rest6) => some ((k, v) :: fs, rest6)
            else none
        else none
    else none

end

/-- `JSON.parse`, restricted to the value shapes above: the whole input must
be consumed. -/
def Json.parse (s : Str) : Option Json :=
  match parseVal (s.length + 1) s with
  | some (j, []) => some j
  | _ => none

/-- Field access `j.k` on a parsed JSON value: `some` only when `j` is an
object with that field (JavaScript would yield `undefined` otherwise). -/
def Json.getField (j : Json) (k : Str) : Option Json :=
  match j with
  | .obj fs => ((fs.find? (fun p => p.1 == k)).map (fun p => p.2))
  | _ => none

/-- Field access that additionally requires the field to be a string; any
other case makes the CryptoJS `substr` calls throw, which the keystore
catches. -/
def Json.getStr (j : Json) (k : Str) : Option Str :=
  match j.getField k with
  | some (.str s) => some s
  | _ => none

/-- JavaScript truthiness of a parsed JSON value: of the shapes we model only
the empty string is falsy (arrays and objects are always truthy). -/
def Json.truthy : Json → Bool
  | .str s => s ≠ []
  | .arr _ => true
  | .obj _ => true

/-- Truthiness of a possibly-absent value (`null` is falsy). -/
def jsTruthy : Option Json → Bool
  | none => false
  | some j => j.truthy

/-- An entry of the wallet name index. -/
structure IndexEntry where
  name : Str
  address : Str
deriving DecidableEq

/-- The JSON image of an index entry, with the field order `addToIndex`
creates (`{ name, address }`). -/
def entryToJson (e : IndexEntry) : Json :=
  .obj [("name".toList, .str e.name), ("address".toList, .str e.address)]

/-- The JSON image of the whole index. -/
def indexToJson (es : List IndexEntry) : Json :=
  .arr (es.map entryToJson)

/-- Decode one index entry; only the exact shape the store itself writes is
accepted. -/
def decodeEntry : Json → Option IndexEntry
  | .obj [(k1, .str n), (k2, .str a)] =>
    if k1 = "name".toList ∧ k2 = "address".toList then some ⟨n, a⟩ else none
  | _ => none

/-- Decode the index array. -/
def decodeIndex : Json → Option (List IndexEntry)
  | .arr xs => xs.mapM decodeEntry
  | _ => none

/-- A plaintext wallet (`types.ts` is not in the source tree; the field names
are the ones the keystore and the tests use: `cosmosAddress`, `privateKey`,
`publicKey`, all strings). -/
structure Wallet where
  cosmosAddress : Str
  privateKey : Str
  publicKey : Str
deriving DecidableEq

/-- `JSON.stringify(wallet)`s input shape. -/
def walletToJson (w : Wallet) : Json :=
  .obj [("cosmosAddress".toList, .str w.cosmosAddress),
        ("privateKey".toList, .str w.privateKey),
        ("publicKey".toList, .str w.publicKey)]

/-- The `StoredWallet` record `addToStorage` writes (`{ name, address,
wallet }` with `wallet` the ciphertext). -/
def storedWalletJson (name address wallet : Str) : Json :=
  .obj [("name".toList, .str name), ("address".toList, .str address),
        ("wallet".toList, .str wallet)]

/-- The abstract CryptoJS primitives (external library code).  A `WordArray`
is identified with its hex rendering.  `pbkdf2 password salt keySizeWords
iter` derives a key; `aesEncrypt message key iv` and `aesDecrypt ciphertext
key iv` are AES-256-CBC with PKCS7 padding, `aesDecrypt` returning `none`
when unpadding/UTF-8 decoding throws. -/
structure CryptoPrims where
  pbkdf2 : Str → Str → Nat → Nat → Str
  aesEncrypt : Str → Str → Str → Str
  aesDecrypt : Str → Str → Str → Option Str

/-- `const keySize = 256`. -/
def keySize : Nat := 256

/-- `const iterations = 100`. -/
def iterations : Nat := 100

/-- `encrypt(message, password)`, with the randomly generated 128-bit salt
and iv hoisted to explicit hex-string parameters. -/
def encrypt (c : CryptoPrims) (saltHex ivHex : Str) (message password : Str) : Str :=
  let key := c.pbkdf2 password saltHex (keySize / 32) iterations
  let encrypted := c.aesEncrypt message key ivHex
  saltHex ++ ivHex ++ encrypted

/-- `decrypt(transitMessage, password)`: split the 32-hex-character salt and
iv prefixes, re-derive the key from the supplied password and the stored
salt, then AES-decrypt the remainder. -/
def decrypt (c : CryptoPrims) (transitMessage password : Str) : Option Str :=
  let saltHex := transitMessage.take 32
  let ivHex := (transitMessage.drop 32).take 32
  let encrypted := transitMessage.drop 64
  let key := c.pbkdf2 password saltHex (keySize / 32) iterations
  c.aesDecrypt encrypted key ivHex

/-- `KEY_TAG` plus the separating dash, the common front part of every
storage key. -/
def keyPre : Str := "cosmos-wallets-".toList

/-- The storage key of the wallet entry for an address. -/
def walletKeyStr (address : Str) : Str := keyPre ++ address

/-- The storage key of the index (`KEY_TAG + '-index'`); note that it
coincides with `walletKeyStr "index"`. -/
def indexKeyStr : Str := keyPre ++ "index".toList

/-- Error messages thrown by the keystore (`new Error(...)` is modelled by
its message). -/
def noWalletMsg : Str := "No wallet found for requested address".toList

/-- `testPassword`s not-found message (the source really misses the `-ed`). -/
def noWalletTestMsg : Str := "No wallet found for request address".toList

/-- `getStoredWallet`s wrong-password message. -/
def incorrectMsg : Str := "Incorrect password".toList

/-- `testPassword`s (and hence `removeWallet`s) wrong-password message. -/
def pwIncorrectMsg : Str := "Password for wallet is incorrect".toList

/-- `storeWallet`s duplicate-address message. -/
def alreadyStoredMsg : Str :=
  "The wallet was already stored. Can".toList ++
    [Char.ofNat 39] ++ "t store the same wallet again.".toList

/-- `addToIndex`s duplicate-name message. -/
def dupNameMsg : Str := "Key with that name already exists".toList

/-- A `JSON.parse` failure escaping uncaught (a `SyntaxError`, and also the
dynamic-type failures a malformed index value would cause); it can only occur
on stores holding values this module never writes. -/
def jsonErrMsg : Str := "SyntaxError".toList

/-- The literal `'[]'` used as default when the index key is absent. -/
def jsonEmptyArr : Str := ['[', ']']

/-- `loadFromStorage`: read and parse the wallet entry; absent or empty
values are `null`. -/
def loadFromStorage (st : Storage) (address : Str) : Except Str (Option Json) :=
  match st.getItem (walletKeyStr address) with
  | none => .ok none
  | some stored =>
    if stored = [] then .ok none
    else
      match Json.parse stored with
      | some j => .ok (some j)
      | none => .error jsonErrMsg

/-- The decoded index of a store: the index key's value (defaulting to
`'[]'` when absent or empty) parsed and decoded as an entry list. -/
def indexEntriesOf (st : Storage) : Option (List IndexEntry) :=
  let s := match st.getItem indexKeyStr with
           | none => jsonEmptyArr
           | some v => if v = [] then jsonEmptyArr else v
  (Json.parse s).bind decodeIndex

/-- `getWalletIndex()`: parse the stored index, an empty index when the key
was never written.  Read-only: the store comes back unchanged. -/
def getWalletIndex (st : Storage) : Except Str (List IndexEntry) × Storage :=
  (match indexEntriesOf st with
   | some es => .ok es
   | none => .error jsonErrMsg, st)

/-- `addToIndex(name, address)`: fail when the name is taken, else append the
entry and write the index back. -/
def addToIndex (st : Storage) (name address : Str) : Except Str Unit × Storage :=
  match (getWalletIndex st).1 with
  | .error e => (.error e, st)
  | .ok storedIndex =>
    if (storedIndex.find? (fun e => name == e.name)).isSome then
      (.error dupNameMsg, st)
    else
      (.ok (), st.setItem indexKeyStr
        (Json.stringify (indexToJson (storedIndex ++ [⟨name, address⟩]))))

/-- `addToStorage(name, address, ciphertext)`: index first, then the wallet
entry. -/
def addToStorage (st : Storage) (name address ciphertext : Str) :
    Except Str Unit × Storage :=
  match addToIndex st name address with
  | (.error e, st1) => (.error e, st1)
  | (.ok _, st1) =>
    (.ok (), st1.setItem (walletKeyStr address)
      (Json.stringify (storedWalletJson name address ciphertext)))

/-- `removeFromIndex(address)`: keep the entries whose address differs. -/
def removeFromIndex (st : Storage) (address : Str) : Except Str Unit × Storage :=
  match (getWalletIndex st).1 with
  | .error e => (.error e, st)
  | .ok storedIndex =>
    (.ok (), st.setItem indexKeyStr
      (Json.stringify (indexToJson
        (storedIndex.filter (fun e => e.address != address)))))

/-- `removeFromStorage(address)`: drop the index entry, then the wallet
entry. -/
def removeFromStorage (st : Storage) (address : Str) : Except Str Unit × Storage :=
  match removeFromIndex st address with
  | (.error e, st1) => (.error e, st1)
  | (.ok _, st1) => (.ok (), st1.removeItem (walletKeyStr address))

/-- `storeWallet(wallet, name, password)`, the salt and iv of the fresh
encryption passed explicitly. -/
def storeWallet (c : CryptoPrims) (saltHex ivHex : Str) (wallet : Wallet)
    (name password : Str) (st : Storage) : Except Str Unit × Storage :=
  match loadFromStorage st wallet.cosmosAddress with
  | .error e => (.error e, st)
  | .ok storedWallet =>
    if jsTruthy storedWallet then (.error alreadyStoredMsg, st)
    else
      let ciphertext :=
        encrypt c saltHex ivHex (Json.stringify (walletToJson wallet)) password
      addToStorage st name wallet.cosmosAddress ciphertext

/-- The body of the `try` blocks of `getStoredWallet` and `testPassword`:
read the `wallet` field (anything but a string makes `decrypt` throw),
decrypt it and `JSON.parse` the plaintext; `none` models the caught
exception. -/
def tryDecryptParse (c : CryptoPrims) (storedWallet : Json) (password : Str) :
    Option Json := do
  let ct ← storedWallet.getStr "wallet".toList
  let decrypted ← decrypt c ct password
  Json.parse decrypted

/-- `getStoredWallet(address, password)`: load, decrypt, parse; the parsed
plaintext is returned as-is (the source performs no shape validation).
Read-only: the store comes back unchanged. -/
def getStoredWallet (c : CryptoPrims) (address password : Str) (st : Storage) :
    Except Str Json × Storage :=
  (match loadFromStorage st address with
   | .error e => .error e
   | .ok storedWallet =>
     match storedWallet with
     | none => .error noWalletMsg
     | some j =>
       if j.truthy then
         match tryDecryptParse c j password with
         | some w => .ok w
         | none => .error incorrectMsg
       else .error noWalletMsg, st)

/-- `testPassword(address, password)`: decrypt and check the plaintext is
JSON, discarding it.  Read-only. -/
def testPassword (c : CryptoPrims) (address password : Str) (st : Storage) :
    Except Str Unit × Storage :=
  (match loadFromStorage st address with
   | .error e => .error e
   | .ok storedWallet =>
     match storedWallet with
     | none => .error noWalletTestMsg
     | some j =>
       if j.truthy then
         if (tryDecryptParse c j password).isSome then .ok ()
         else .error pwIncorrectMsg
       else .error noWalletTestMsg, st)

/-- `removeWallet(address, password)`: existence check, then the password
check, and only then the two deletions. -/
def removeWallet (c : CryptoPrims) (address password : Str) (st : Storage) :
    Except Str Unit × Storage :=
  match loadFromStorage st address with
  | .error e => (.error e, st)
  | .ok storedWallet =>
    if jsTruthy storedWallet then
      match testPassword c address password st with
      | (.error e, st1) => (.error e, st1)
      | (.ok _, st1) => removeFromStorage st1 address
    else (.error noWalletMsg, st)

mutual

/-- Structural size of a JSON value, used as sufficient parser fuel. -/
def jsize : Json → Nat
  | .str _ => 1
  | .arr xs => 1 + jsizeItems xs
  | .obj fs => 1 + jsizeFields fs

/-- Fuel needed for an element list. -/
def jsizeItems : List Json → Nat
  | [] => 0
  | x :: xs => 1 + jsize x + jsizeItems xs

/-- Fuel needed for a field list. -/
def jsizeFields : List (Str × Json) → Nat
  | [] => 0
  | f :: fs => 1 + jsize f.2 + jsizeFields fs

end

/-- `Nodup` as a boolean, over any type with lawful `==`. -/
def nodupKeys : List Str → Bool
  | [] => true
  | x :: xs => (!xs.contains x) && nodupKeys xs

/-- The address a storage key refers to, when the key has the wallet-entry
shape `cosmos-wallets-<address>` (the index key itself reads as the address
`index`). -/
def addrOfKey (k : Str) : Option Str :=
  if k.take keyPre.length = keyPre then some (k.drop keyPre.length) else none

/-- Whether a raw storage value has the shape of a serialized `StoredWallet`:
it parses as JSON and carries the three string fields the store writes. -/
def isStoredWalletVal (v : Str) : Bool :=
  match Json.parse v with
  | some j => (j.getStr "name".toList).isSome && (j.getStr "address".toList).isSome
      && (j.getStr "wallet".toList).isSome
  | none => false

/-- How often an address occurs in the index. -/
def countAddr (entries : List IndexEntry) (a : Str) : Nat :=
  (entries.filter (fun e => e.address == a)).length

/-- The store invariant exactly as the specification states it: storage keys
are unique (at most one `StoredWallet` per address), the index decodes and
its names are unique, and the address of every wallet entry appears exactly
once in the index. -/
def storeInv (st : Storage) : Bool :=
  nodupKeys (st.map Prod.fst) &&
  (match indexEntriesOf st with
   | none => false
   | some entries =>
     nodupKeys (entries.map IndexEntry.name) &&
     st.all (fun p =>
       match addrOfKey p.1 with
       | some a => !(isStoredWalletVal p.2) || (countAddr entries a == 1)
       | none => true))

/-- The strengthened (canonical) store invariant: storage keys are unique,
the index decodes, names and addresses are unique in it, no index entry
claims the reserved address `index`, every indexed address owns a well-formed
wallet entry, and conversely every well-formed wallet entry is indexed. -/
def canonicalInv (st : Storage) : Bool :=
  nodupKeys (st.map Prod.fst) &&
  (match indexEntriesOf st with
   | none => false
   | some entries =>
     nodupKeys (entries.map IndexEntry.name) &&
     nodupKeys (entries.map IndexEntry.address) &&
     !(entries.any (fun e => e.address == "index".toList)) &&
     entries.all (fun e =>
       match st.getItem (walletKeyStr e.address) with
       | some v => isStoredWalletVal v
       | none => false) &&
     st.all (fun p =>
       match addrOfKey p.1 with
       | some a => !(isStoredWalletVal p.2) || entries.any (fun e => e.address == a)
       | none => true))

/-- Reduction of a machine word modulo `2 ^ 32`. -/
def m32 (n : Nat) : Nat := n % 4294967296

/-- Left rotation of a 32-bit word. -/
def rotl32 (s x : Nat) : Nat := m32 ((x <<< s) ||| (x >>> (32 - s)))

/-- Right rotation of a 32-bit word. -/
def rotr32 (s x : Nat) : Nat := m32 ((x >>> s) ||| (x <<< (32 - s)))

/-- Bitwise complement of a 32-bit word. -/
def bnot32 (x : Nat) : Nat := x ^^^ 4294967295

/-- The first 64 primes; the SHA-256 round constants and initial state are
the fractional parts of their cube and square roots. -/
def primes64 : List Nat :=
  [2, 3, 5, 7, 11, 13, 17, 19, 23, 29, 31, 37, 41, 43, 47, 53,
   59, 61, 67, 71, 73, 79, 83, 89, 97, 101, 103, 107, 109, 113, 127, 131,
   137, 139, 149, 151, 157, 163, 167, 173, 179, 181, 191, 193, 197, 199, 211, 223,
   227, 229, 233, 239, 241, 251, 257, 263, 269, 271, 277, 281, 283, 293, 307, 311]

/-- Binary search for the integer cube root. -/
def icbrtGo (n : Nat) : Nat → Nat → Nat → Nat
  | 0, lo, _ => lo
  | fuel + 1, lo, hi =>
    if hi ≤ lo + 1 then lo
    else
      let mid := (lo + hi) / 2
      if mid * mid * mid ≤ n then icbrtGo n fuel mid hi else icbrtGo n fuel lo mid

/-- Integer cube root (for the inputs used here, `n ≥ 1`). -/
def icbrt (n : Nat) : Nat := icbrtGo n 200 1 (n + 1)

/-- Binary search for the integer square root. -/
def isqrtGo (n : Nat) : Nat → Nat → Nat → Nat
  | 0, lo, _ => lo
  | fuel + 1, lo, hi =>
    if hi ≤ lo + 1 then lo
    else
      let mid := (lo + hi) / 2
      if mid * mid ≤ n then isqrtGo n fuel mid hi else isqrtGo n fuel lo mid

/-- Integer square root (kernel-reducible, unlike the library one). -/
def isqrt (n : Nat) : Nat := isqrtGo n 200 0 (n + 1)

/-- The 64 SHA-256 round constants: the first 32 fractional bits of the cube
roots of the first 64 primes. -/
def shaK : List Nat := primes64.map (fun p => m32 (icbrt (p * 2 ^ 96)))

/-- The SHA-256 initial state: the first 32 fractional bits of the square
roots of the first 8 primes. -/
def shaH0 : List Nat := (primes64.take 8).map (fun p => m32 (isqrt (p * 2 ^ 64)))

/-- A number as `k` big-endian bytes. -/
def natToBytesBE (k n : Nat) : List Nat :=
  (List.range k).map (fun i => (n >>> (8 * (k - 1 - i))) % 256)

/-- A number as `k` little-endian bytes. -/
def natToBytesLE (k n : Nat) : List Nat :=
  (List.range k).map (fun i => (n >>> (8 * i)) % 256)

/-- Merkle-Damgard padding: `0x80`, zeros, then the 64-bit bit length
big-endian (SHA-256). -/
def sha256Pad (msg : List Nat) : List Nat :=
  msg ++ 0x80 :: List.replicate ((64 - (msg.length + 9) % 64) % 64) 0 ++
    natToBytesBE 8 (8 * msg.length)

/-- Bytes to 32-bit words, big-endian. -/
def bytesToW32BE : List Nat → List Nat
  | b0 :: b1 :: b2 :: b3 :: rest =>
      (((b0 * 256 + b1) * 256 + b2) * 256 + b3) :: bytesToW32BE rest
  | _ => []

/-- Bytes to 32-bit words, little-endian. -/
def bytesToW32LE : List Nat → List Nat
  | b0 :: b1 :: b2 :: b3 :: rest =>
      (((b3 * 256 + b2) * 256 + b1) * 256 + b0) :: bytesToW32LE rest
  | _ => []

/-- Split into 64-byte blocks (fuel-structural so that it reduces in the
kernel). -/
def chunks64Go : Nat → List Nat → List (List Nat)
  | 0, _ => []
  | _, [] => []
  | fuel + 1, l => l.take 64 :: chunks64Go fuel (l.drop 64)

/-- Split into 64-byte blocks. -/
def chunks64 (l : List Nat) : List (List Nat) := chunks64Go l.length l

/-- SHA-256 small sigma 0. -/
def ssig0 (x : Nat) : Nat := rotr32 7 x ^^^ rotr32 18 x ^^^ (x >>> 3)

/-- SHA-256 small sigma 1. -/
def ssig1 (x : Nat) : Nat := rotr32 17 x ^^^ rotr32 19 x ^^^ (x >>> 10)

/-- SHA-256 big sigma 0. -/
def bsig0 (x : Nat) : Nat := rotr32 2 x ^^^ rotr32 13 x ^^^ rotr32 22 x

/-- SHA-256 big sigma 1. -/
def bsig1 (x : Nat) : Nat := rotr32 6 x ^^^ rotr32 11 x ^^^ rotr32 25 x

/-- SHA-256 choice function. -/
def chF (x y z : Nat) : Nat := (x &&& y) ^^^ (bnot32 x &&& z)

/-- SHA-256 majority function. -/
def majF (x y z : Nat) : Nat := (x &&& y) ^^^ (x &&& z) ^^^ (y &&& z)

/-- Extend the 16 message words to 64. -/
def shaExtend : Nat → List Nat → List Nat
  | 0, w => w
  | n + 1, w =>
      let t := w.length
      shaExtend n (w ++ [m32 (ssig1 (w.getD (t - 2) 0) + w.getD (t - 7) 0 +
        ssig0 (w.getD (t - 15) 0) + w.getD (t - 16) 0)])

/-- One SHA-256 round on the 8-word state. -/
def shaRound (kt wt : Nat) (s : List Nat) : List Nat :=
  match s with
  | [a, b, c, d, e, f, g, h] =>
    let t1 := m32 (h + bsig1 e + chF e f g + kt + wt)
    let t2 := m32 (bsig0 a + majF a b c)
    [m32 (t1 + t2), a, b, c, m32 (d + t1), e, f, g]
  | s => s

/-- SHA-256 block compression. -/
def shaCompress (h : List Nat) (block : List Nat) : List Nat :=
  let w := shaExtend 48 (bytesToW32BE block)
  let s := (List.range 64).foldl (fun s t => shaRound (shaK.getD t 0) (w.getD t 0) s) h
  (h.zip s).map (fun p => m32 (p.1 + p.2))

/-- SHA-256 of a byte sequence. -/
def sha256 (msg : List Nat) : List Nat :=
  (((chunks64 (sha256Pad msg)).foldl shaCompress shaH0).map (natToBytesBE 4)).flatten

/-- RIPEMD-160 initial state. -/
def ripH0 : List Nat := [0x67452301, 0xEFCDAB89, 0x98BADCFE, 0x10325476, 0xC3D2E1F0]

/-- RIPEMD-160 left-line round constants: zero and the first 30 fractional
bits of the square roots of 2, 3, 5, 7. -/
def ripKL : List Nat :=
  [0, isqrt (2 * 2 ^ 60), isqrt (3 * 2 ^ 60), isqrt (5 * 2 ^ 60), isqrt (7 * 2 ^ 60)]

/-- RIPEMD-160 right-line round constants: the first 30 fractional bits of
the cube roots of 2, 3, 5, 7, then zero. -/
def ripKR : List Nat :=
  [icbrt (2 * 2 ^ 90), icbrt (3 * 2 ^ 90), icbrt (5 * 2 ^ 90), icbrt (7 * 2 ^ 90), 0]

/-- RIPEMD-160 left-line message word selection. -/
def ripRL : List Nat :=
  [0, 1, 2, 3, 4, 5, 6, 7, 8, 9, 10, 11, 12, 13, 14, 15,
   7, 4, 13, 1, 10, 6, 15, 3, 12, 0, 9, 5, 2, 14, 11, 8,
   3, 10, 14, 4, 9, 15, 8, 1, 2, 7, 0, 6, 13, 11, 5, 12,
   1, 9, 11, 10, 0, 8, 12, 4, 13, 3, 7, 15, 14, 5, 6, 2,
   4, 0, 5, 9, 7, 12, 2, 10, 14, 1, 3, 8, 11, 6, 15, 13]

/-- RIPEMD-160 right-line message word selection. -/
def ripRR : List Nat :=
  [5, 14, 7, 0, 9, 2, 11, 4, 13, 6, 15, 8, 1, 10, 3, 12,
   6, 11, 3, 7, 0, 13, 5, 10, 14, 15, 8, 12, 4, 9, 1, 2,
   15, 5, 1, 3, 7, 14, 6, 9, 11, 8, 12, 2, 10, 0, 4, 13,
   8, 6, 4, 1, 3, 11, 15, 0, 5, 12, 2, 13, 9, 7, 10, 14,
   12, 15, 10, 4, 1, 5, 8, 7, 6, 2, 13, 14, 0, 3, 9, 11]

/-- RIPEMD-160 left-line rotation amounts. -/
def ripSL : List Nat :=
  [11, 14, 15, 12, 5, 8, 7, 9, 11, 13, 14, 15, 6, 7, 9, 8,
   7, 6, 8, 13, 11, 9, 7, 15, 7, 12, 15, 9, 11, 7, 13, 12,
   11, 13, 6, 7, 14, 9, 13, 15, 14, 8, 13, 6, 5, 12, 7, 5,
   11, 12, 14, 15, 14, 15, 9, 8, 9, 14, 5, 6, 8, 6, 5, 12,
   9, 15, 5, 11, 6, 8, 13, 12, 5, 12, 13, 14, 11, 8, 5, 6]

/-- RIPEMD-160 right-line rotation amounts. -/
def ripSR : List Nat :=
  [8, 9, 9, 11, 13, 15, 15, 5, 7, 7, 8, 11, 14, 14, 12, 6,
   9, 13, 15, 7, 12, 8, 9, 11, 7, 7, 12, 7, 6, 15, 13, 11,
   9, 7, 15, 11, 8, 6, 6, 14, 12, 13, 5, 14, 13, 13, 7, 5,
   15, 5, 8, 11, 14, 14, 6, 14, 6, 9, 12, 9, 12, 5, 15, 8,
   8, 5, 12, 9, 12, 5, 14, 6, 8, 13, 6, 5, 15, 13, 11, 11]

/-- The five RIPEMD-160 selection functions. -/
def ripF (r x y z : Nat) : Nat :=
  if r = 0 then x ^^^ y ^^^ z
  else if r = 1 then (x &&& y) ||| (bnot32 x &&& z)
  else if r = 2 then (x ||| bnot32 y) ^^^ z
  else if r = 3 then (x &&& z) ||| (y &&& bnot32 z)
  else x ^^^ (y ||| bnot32 z)

/-- One RIPEMD-160 step on a 5-word state. -/
def ripStep (x : List Nat) (rTab sTab kTab : List Nat) (fSel : Nat → Nat) (j : Nat)
    (s : List Nat) : List Nat :=
  match s with
  | [a, b, c, d, e] =>
    let t := m32 (rotl32 (sTab.getD j 0)
        (m32 (a + ripF (fSel (j / 16)) b c d + x.getD (rTab.getD j 0) 0 +
          kTab.getD (j / 16) 0)) + e)
    [e, t, b, rotl32 10 c, d]
  | s => s

/-- RIPEMD-160 block compression: left and right lines, then the cyclic
recombination. -/
def ripCompress (h : List Nat) (block : List Nat) : List Nat :=
  let x := bytesToW32LE block
  let lh := (List.range 80).foldl (fun s j => ripStep x ripRL ripSL ripKL (fun r => r) j s) h
  let rh := (List.range 80).foldl (fun s j => ripStep x ripRR ripSR ripKR (fun r => 4 - r) j s) h
  match h, lh, rh with
  | [h0, h1, h2, h3, h4], [a, b, c, d, e], [a2, b2, c2, d2, e2] =>
    [m32 (h1 + c + d2), m32 (h2 + d + e2), m32 (h3 + e + a2),
     m32 (h4 + a + b2), m32 (h0 + b + c2)]
  | _, _, _ => h

/-- RIPEMD-160 padding (little-endian length). -/
def ripPad (msg : List Nat) : List Nat :=
  msg ++ 0x80 :: List.replicate ((64 - (msg.length + 9) % 64) % 64) 0 ++
    natToBytesLE 8 (8 * msg.length)

/-- RIPEMD-160 of a byte sequence. -/
def ripemd160 (msg : List Nat) : List Nat :=
  (((chunks64 (ripPad msg)).foldl ripCompress ripH0).map (natToBytesLE 4)).flatten

/-- The bech32 checksum generator constants. -/
def bech32Gen : List Nat := [0x3b6a57b2, 0x26508e6d, 0x1ea119fa, 0x3d4233dd, 0x2a1462b3]

/-- One step of the bech32 polynomial checksum. -/
def bech32PolymodStep (chk v : Nat) : Nat :=
  let b := chk >>> 25
  let chk2 := ((chk &&& 0x1ffffff) <<< 5) ^^^ v
  (List.range 5).foldl
    (fun c i => if (b >>> i) &&& 1 = 1 then c ^^^ bech32Gen.getD i 0 else c) chk2

/-- The bech32 polymod over a value sequence. -/
def bech32Polymod (vs : List Nat) : Nat := vs.foldl bech32PolymodStep 1

/-- The human-readable part expanded for checksumming: high bits, a zero,
low bits. -/
def bech32HrpExpand (hrp : List Char) : List Nat :=
  hrp.map (fun c => c.toNat >>> 5) ++ [0] ++ hrp.map (fun c => c.toNat &&& 31)

/-- The 6-group bech32 checksum of a prefix and data. -/
def bech32CreateChecksum (hrp : List Char) (data : List Nat) : List Nat :=
  let pm := bech32Polymod (bech32HrpExpand hrp ++ data ++ [0, 0, 0, 0, 0, 0]) ^^^ 1
  (List.range 6).map (fun i => (pm >>> (5 * (5 - i))) &&& 31)

/-- The fixed 32-character bech32 alphabet. -/
def bech32Charlist : List Char := "qpzry9x8gf2tvdw0s3jn54khce6mua7".toList

/-- Assemble a bech32 string: prefix, separator `1`, data and checksum
mapped through the alphabet. -/
def bech32Encode (hrp : List Char) (data : List Nat) : List Char :=
  hrp ++ '1' :: (data ++ bech32CreateChecksum hrp data).map (fun d => bech32Charlist.getD d '?')

/-- The 8 bits of a byte, most significant first. -/
def toBits8 (b : Nat) : List Nat := (List.range 8).map (fun i => (b >>> (7 - i)) &&& 1)

/-- Split into 5-bit groups (fuel-structural). -/
def chunks5Go : Nat → List Nat → List (List Nat)
  | 0, _ => []
  | _, [] => []
  | fuel + 1, l => l.take 5 :: chunks5Go fuel (l.drop 5)

/-- Split into 5-bit groups. -/
def chunks5 (l : List Nat) : List (List Nat) := chunks5Go l.length l

/-- Repack bytes into 5-bit groups, most-significant-bit first, zero-padding
the final group. -/
def convert8to5 (bytes : List Nat) : List Nat :=
  let bits := (bytes.map toBits8).flatten
  let padded := bits ++ List.replicate ((5 - bits.length % 5) % 5) 0
  (chunks5 padded).map (fun g => g.foldl (fun a b => 2 * a + b) 0)

/-- Modelled from the spec: `getCosmosAddress` lives in `cosmos-keys.ts`,
which is not under the source tree; section 4.3 specifies it exactly as
SHA-256 of the compressed public key, then RIPEMD-160 of that digest, the
20-byte identifier repacked into 5-bit groups and bech32-encoded under the
fixed prefix `cosmos`. -/
def getCosmosAddress (publicKey : List Nat) : List Char :=
  bech32Encode "cosmos".toList (convert8to5 (ripemd160 (sha256 publicKey)))

/-- Lexicographic comparison of strings by code point, the order
`Object.keys(...).sort()` uses for the canonical serializer. -/
def strLtB : Str → Str → Bool
  | [], [] => false
  | [], _ :: _ => true
  | _ :: _, [] => false
  | c :: cs, d :: ds =>
    if c.toNat < d.toNat then true
    else if d.toNat < c.toNat then false
    else strLtB cs ds

/-- Insertion into a key-sorted field list. -/
def insertField (f : Str × Json) : List (Str × Json) → List (Str × Json)
  | [] => [f]
  | g :: gs => if strLtB f.1 g.1 then f :: g :: gs else g :: insertField f gs

/-- Insertion sort of object fields by key. -/
def sortFields : List (Str × Json) → List (Str × Json)
  | [] => []
  | f :: fs => insertField f (sortFields fs)

mutual

/-- Modelled from the spec: the canonical-JSON transform of section 4.4,
sorting object keys lexicographically at every nesting level while arrays
keep their order; serializing the result with the whitespace-free
`Json.stringify` yields the canonical text. -/
def canonicalJson : Json → Json
  | .str s => .str s
  | .arr xs => .arr (canonItems xs)
  | .obj fs => .obj (sortFields (canonFields fs))

/-- Canonicalize each array element. -/
def canonItems : List Json → List Json
  | [] => []
  | x :: xs => canonicalJson x :: canonItems xs

/-- Canonicalize each field value. -/
def canonFields : List (Str × Json) → List (Str × Json)
  | [] => []
  | (k, v) :: fs => (k, canonicalJson v) :: canonFields fs

end

/-- The order of the secp256k1 group. -/
def secpOrder : Nat :=
  0xFFFFFFFFFFFFFFFFFFFFFFFFFFFFFFFEBAAEDCE6AF48A03BBFD25E8CD0364141

/-- Modular exponentiation, fuel-structural on the bit length. -/
def powModGo (b n : Nat) : Nat → Nat → Nat
  | 0, _ => 1 % n
  | fuel + 1, e =>
    if e = 0 then 1 % n
    else
      let h := powModGo b n fuel (e / 2)
      if e % 2 = 1 then h * h % n * b % n else h * h % n

/-- `b ^ e` modulo `n`. -/
def powMod (b e n : Nat) : Nat := powModGo b n 512 e

/-- Big-endian bytes as a number. -/
def bytesToNatBE (l : List Nat) : Nat := l.foldl (fun a b => 256 * a + b) 0

/-- Modelled from the spec: the two signing primitives section 4.4 leaves to
the elliptic-curve library — the deterministic per-signature nonce, an
HMAC-style function of the private key and the message digest only, and the
x-coordinate of the nonce point `k·G` reduced mod the group order. -/
structure EcdsaPrims where
  nonce : List Nat → List Nat → Nat
  rOf : Nat → Nat

/-- Modelled from the spec: `signWithPrivateKey` lives in `cosmos-keys.ts`,
which is not under the source tree.  Section 4.4 specifies it as: serialize
the transaction canonically (sorted keys, no whitespace), hash with SHA-256,
sign with ECDSA over secp256k1 using the deterministic nonce — never the
ambient randomness, which is why the `entropy` capability argument goes
unused — normalize to low-S, and emit the 64 bytes `r || s` big-endian. -/
def signWithPrivateKey (P : EcdsaPrims) (tx : Json) (privateKey : List Nat)
    (entropy : Nat → Nat) : List Nat :=
  let canonical := Json.stringify (canonicalJson tx)
  let digest := sha256 (canonical.map Char.toNat)
  let z := bytesToNatBE digest % secpOrder
  let d := bytesToNatBE privateKey % secpOrder
  let k := P.nonce privateKey digest % secpOrder
  let r := P.rOf k % secpOrder
  let s := powMod k (secpOrder - 2) secpOrder * ((z + r * d) % secpOrder) % secpOrder
  let s2 := if secpOrder / 2 < s then secpOrder - s else s
  natToBytesBE 32 r ++ natToBytesBE 32 s2

/-- The compressed public key of the first address test vector. -/
def pkVec1 : List Nat :=
  [0x52, 0xfd, 0xfc, 0x07, 0x21, 0x82, 0x65, 0x4f, 0x16, 0x3f, 0x5f, 0x0f,
   0x9a, 0x62, 0x1d, 0x72, 0x95, 0x66, 0xc7, 0x4d, 0x10, 0x03, 0x7c, 0x4d,
   0x7b, 0xbb, 0x04, 0x07, 0xd1, 0xe2, 0xc6, 0x49, 0x81]

/-- A trivial instantiation of the cipher bundle, used by the witnesses: the
identity cipher with a key that concatenates password and salt. -/
def cId : CryptoPrims :=
  ⟨fun p s _ _ => p ++ s, fun m _ _ => m, fun ct _ _ => some ct⟩

/-- A cipher bundle whose decryption always fails, used by the
wrong-password witnesses. -/
def cFail : CryptoPrims :=
  ⟨fun p s _ _ => p ++ s, fun m _ _ => m, fun _ _ _ => none⟩

/-- A 32-character salt for the witnesses. -/
def saltW : Str := List.replicate 32 'a'

/-- A 32-character iv for the witnesses. -/
def ivW : Str := List.replicate 32 'b'

/-- A concrete wallet for the witnesses. -/
def wW : Wallet := ⟨"addr1".toList, "pk1".toList, "pub1".toList⟩

/-- The store of the wrong-password witness: one wallet stored under the
always-failing cipher. -/
def stC2 : Storage := (storeWallet cFail saltW ivW wW "name1".toList "pw".toList []).2

/-- The raw stored value of that wallet entry. -/
def vC2 : Str :=
  Json.stringify (storedWalletJson "name1".toList wW.cosmosAddress
    (encrypt cFail saltW ivW (Json.stringify (walletToJson wW)) "pw".toList))

/-- The parsed stored value of that wallet entry. -/
def jC2 : Json :=
  storedWalletJson "name1".toList wW.cosmosAddress
    (encrypt cFail saltW ivW (Json.stringify (walletToJson wW)) "pw".toList)

/-- The pre-state of the C3 counterexample: a store whose index holds one
entry for an address that has no wallet entry; the invariant as the
specification states it accepts this store. -/
def stDangle : Storage :=
  [(indexKeyStr, Json.stringify (indexToJson [⟨"n".toList, "a".toList⟩]))]

/-- The wallet whose storing breaks the stated invariant on `stDangle`. -/
def wDangle : Wallet := ⟨"a".toList, "pk".toList, "pub".toList⟩

/-- The store of the successful-removal witness: one wallet stored under the
identity cipher. -/
def stOkW : Storage := (storeWallet cId saltW ivW wW "name1".toList "pw".toList []).2

/-- The raw stored value of that wallet entry. -/
def vOkW : Str :=
  Json.stringify (storedWalletJson "name1".toList wW.cosmosAddress
    (encrypt cId saltW ivW (Json.stringify (walletToJson wW)) "pw".toList))

/-- The parsed stored value of that wallet entry. -/
def jOkW : Json :=
  storedWalletJson "name1".toList wW.cosmosAddress
    (encrypt cId saltW ivW (Json.stringify (walletToJson wW)) "pw".toList)

theorem getItem_nil (k : Str) : Storage.getItem [] k = none := rfl

theorem getItem_cons (p : Str × Str) (st : Storage) (k : Str) :
    Storage.getItem (p :: st) k = if p.1 = k then some p.2 else st.getItem k := by
  by_cases h : p.1 = k
  · simp [Storage.getItem, List.find?_cons_of_pos, h]
  · simp only [Storage.getItem] at *
    rw [List.find?_cons_of_neg]
    · simp [h]
    · simp [h]

theorem getItem_append (a b : Storage) (k : Str) :
    Storage.getItem (a ++ b) k =
      match a.getItem k with
      | some v => some v
      | none => b.getItem k := by
  induction a with
  | nil => simp [getItem_nil]
  | cons p a ih =>
    by_cases h : p.1 = k <;> simp [getItem_cons, h, ih]

theorem getItem_removeItem (st : Storage) (k k2 : Str) :
    (st.removeItem k).getItem k2 = if k2 = k then none else st.getItem k2 := by
  induction st with
  | nil => simp [Storage.removeItem, getItem_nil]
  | cons p st ih =>
    simp only [Storage.removeItem, List.filter_cons] at *
    by_cases h1 : p.1 = k
    · rw [if_neg (by simp [h1]), ih]
      by_cases h2 : k2 = k
      · simp [h2]
      · have hpk2 : ¬ p.1 = k2 := fun hh => h2 (by rw [← hh, h1])
        rw [if_neg h2, if_neg h2, getItem_cons, if_neg hpk2]
    · rw [if_pos (by simp [h1]), getItem_cons]
      by_cases h3 : p.1 = k2
      · have hk2k : ¬ k2 = k := fun hh => h1 (by rw [h3, hh])
        rw [if_pos h3, if_neg hk2k, getItem_cons, if_pos h3]
      · rw [if_neg h3, ih, getItem_cons]
        by_cases h2 : k2 = k
        · simp [h2]
        · rw [if_neg h2, if_neg h2, if_neg h3]

theorem getItem_setItem (st : Storage) (k v k2 : Str) :
    (st.setItem k v).getItem k2 = if k2 = k then some v else st.getItem k2 := by
  unfold Storage.setItem
  rw [getItem_append, getItem_removeItem]
  by_cases h : k2 = k
  · simp [h, getItem_cons]
  · cases hst : st.getItem k2 <;> simp [h, hst, getItem_cons, getItem_nil, Ne.symm h]

theorem mem_removeItem (st : Storage) (k : Str) (p : Str × Str) :
    p ∈ st.removeItem k ↔ p ∈ st ∧ p.1 ≠ k := by
  unfold Storage.removeItem
  rw [List.mem_filter]
  simp [bne_iff_ne]

theorem mem_setItem (st : Storage) (k v : Str) (p : Str × Str) :
    p ∈ st.setItem k v → p = (k, v) ∨ (p ∈ st ∧ p.1 ≠ k) := by
  unfold Storage.setItem
  intro h
  rcases List.mem_append.mp h with h | h
  · exact Or.inr ((mem_removeItem st k p).mp h)
  · exact Or.inl (by simpa using h)

theorem nodupKeys_iff (l : List Str) : nodupKeys l = true ↔ l.Nodup := by
  induction l with
  | nil => simp [nodupKeys]
  | cons x xs ih =>
    simp [nodupKeys, ih, List.nodup_cons]

theorem keys_removeItem_sublist (st : Storage) (k : Str) :
    ((st.removeItem k).map Prod.fst).Sublist (st.map Prod.fst) :=
  List.Sublist.map Prod.fst (List.filter_sublist _)

theorem not_mem_keys_removeItem (st : Storage) (k : Str) :
    k ∉ (st.removeItem k).map Prod.fst := by
  intro h
  rcases List.mem_map.mp h with ⟨p, hp, hpk⟩
  exact ((mem_removeItem st k p).mp hp).2 hpk

theorem nodup_keys_setItem (st : Storage) (k v : Str)
    (h : (st.map Prod.fst).Nodup) : ((st.setItem k v).map Prod.fst).Nodup := by
  unfold Storage.setItem
  rw [List.map_append]
  rw [List.nodup_append]
  refine ⟨(keys_removeItem_sublist st k).nodup h, by simp, ?_⟩
  intro a ha hb
  simp only [List.map_cons, List.map_nil, List.mem_singleton] at hb
  exact not_mem_keys_removeItem st k (hb ▸ ha)

theorem nodup_keys_removeItem (st : Storage) (k : Str)
    (h : (st.map Prod.fst).Nodup) : ((st.removeItem k).map Prod.fst).Nodup :=
  (keys_removeItem_sublist st k).nodup h

theorem escapeStr_nil : escapeStr [] = [] := rfl

theorem escapeStr_cons (c : Char) (s : Str) :
    escapeStr (c :: s) = escapeChar c ++ escapeStr s := by
  simp [escapeStr]

theorem parseStrBody_quote (rest : List Char) :
    parseStrBody ('"' :: rest) = some ([], rest) := by
  rw [parseStrBody.eq_def]
  simp

theorem parseStrBody_escaped (c : Char) (s : List Char) (hc : c = '"' ∨ c = '\\') :
    parseStrBody ('\\' :: c :: s) = (parseStrBody s).map (fun p => (c :: p.1, p.2)) := by
  rw [parseStrBody.eq_def]
  simp only [if_neg (by decide : ¬ ('\\' : Char) = '"'),
    if_pos (rfl : ('\\' : Char) = '\\'), if_pos hc, if_true]

theorem parseStrBody_plain (c : Char) (s : List Char) (hc : ¬ c = '"') (hc2 : ¬ c = '\\') :
    parseStrBody (c :: s) = (parseStrBody s).map (fun p => (c :: p.1, p.2)) := by
  rw [parseStrBody.eq_def]
  simp only [hc, hc2, if_false]

theorem parseStrBody_escape (s : Str) (rest : List Char) :
    parseStrBody (escapeStr s ++ '"' :: rest) = some (s, rest) := by
  induction s with
  | nil => rw [escapeStr_nil, List.nil_append, parseStrBody_quote]
  | cons c s ih =>
    rw [escapeStr_cons]
    by_cases hc : c = '"' ∨ c = '\\'
    · rw [escapeChar, if_pos hc]
      simp only [List.cons_append, List.nil_append]
      rw [parseStrBody_escaped c _ hc, ih]
      rfl
    · rw [escapeChar, if_neg hc]
      push_neg at hc
      simp only [List.cons_append, List.nil_append]
      rw [parseStrBody_plain c _ hc.1 hc.2, ih]
      rfl

theorem stringify_head (j : Json) :
    ∃ t, Json.stringify j = '"' :: t ∨ Json.stringify j = '[' :: t ∨
      Json.stringify j = '\x7b' :: t := by
  cases j with
  | str s => exact ⟨escapeStr s ++ ['"'], Or.inl (by rw [Json.stringify])⟩
  | arr xs => exact ⟨stringifyItems xs ++ [']'], Or.inr (Or.inl (by rw [Json.stringify]))⟩
  | obj fs => exact ⟨stringifyFields fs ++ ['\x7d'], Or.inr (Or.inr (by rw [Json.stringify]))⟩

theorem stringifyItems_cons (x : Json) (xs : List Json) :
    ∃ t, stringifyItems (x :: xs) = Json.stringify x ++ t := by
  cases xs with
  | nil => exact ⟨[], by simp [stringifyItems]⟩
  | cons y ys => exact ⟨',' :: stringifyItems (y :: ys), by simp [stringifyItems]⟩

theorem head_stringifyItems_append (x : Json) (xs : List Json) (q : List Char) :
    ∃ c t2, stringifyItems (x :: xs) ++ q = c :: t2 ∧ ¬ c = ']' := by
  obtain ⟨t, ht⟩ := stringifyItems_cons x xs
  rcases stringify_head x with ⟨u, hx | hx | hx⟩
  · exact ⟨'"', u ++ t ++ q, by rw [ht, hx]; simp, by decide⟩
  · exact ⟨'[', u ++ t ++ q, by rw [ht, hx]; simp, by decide⟩
  · exact ⟨'\x7b', u ++ t ++ q, by rw [ht, hx]; simp, by decide⟩

theorem stringifyFields_cons (k : Str) (v : Json) (fs : List (Str × Json)) :
    ∃ t, stringifyFields ((k, v) :: fs) =
      '"' :: (escapeStr k ++ '"' :: ':' :: (Json.stringify v ++ t)) := by
  cases fs with
  | nil => exact ⟨[], by simp [stringifyFields]⟩
  | cons f fs =>
    exact ⟨',' :: stringifyFields (f :: fs), by simp [stringifyFields]⟩

theorem jsize_pos (j : Json) : 1 ≤ jsize j := by
  cases j with
  | str s => rw [jsize]
  | arr xs => rw [jsize]; omega
  | obj fs => rw [jsize]; omega

theorem parseVal_cons (fuel : Nat) (ch : Char) (rest : List Char) :
    parseVal (fuel + 1) (ch :: rest) =
      if ch = '"' then (parseStrBody rest).map (fun p => (Json.str p.1, p.2))
      else if ch = '[' then
        if rest.head? = some ']' then some (Json.arr [], rest.tail)
        else (parseItems fuel rest).map (fun p => (Json.arr p.1, p.2))
      else if ch = '\x7b' then
        if rest.head? = some '\x7d' then some (Json.obj [], rest.tail)
        else (parseFields fuel rest).map (fun p => (Json.obj p.1, p.2))
      else none := by
  rw [parseVal.eq_def]

theorem parseItems_succ (fuel : Nat) (l : List Char) :
    parseItems (fuel + 1) l =
      match parseVal fuel l with
      | none => none
      | some (v, rest) =>
        if rest.head? = some ']' then some ([v], rest.tail)
        else if rest.head? = some ',' then
          match parseItems fuel rest.tail with
          | none => none
          | some (vs, rest3) => some (v :: vs, rest3)
        else none := by
  rw [parseItems.eq_def]

theorem parseFields_succ (fuel : Nat) (l : List Char) :
    parseFields (fuel + 1) l =
      (if l.head? = some '"' then
        match parseStrBody l.tail with
        | none => none
        | some (k, rest2) =>
          if rest2.head? = some ':' then
            match parseVal fuel rest2.tail with
            | none => none
            | some (v, rest4) =>
              if rest4.head? = some '\x7d' then some ([(k, v)], rest4.tail)
              else if rest4.head? = some ',' then
                match parseFields fuel rest4.tail with
                | none => none
                | some (fs, rest6) => some ((k, v) :: fs, rest6)
              else none
          else none
      else none) := by
  rw [parseFields.eq_def]

theorem parse_roundtrip (fuel : Nat) :
    (∀ j rest, jsize j ≤ fuel →
        parseVal fuel (Json.stringify j ++ rest) = some (j, rest)) ∧
    (∀ xs rest, xs ≠ [] → jsizeItems xs ≤ fuel →
        parseItems fuel (stringifyItems xs ++ ']' :: rest) = some (xs, rest)) ∧
    (∀ fs rest, fs ≠ [] → jsizeFields fs ≤ fuel →
        parseFields fuel (stringifyFields fs ++ '\x7d' :: rest) = some (fs, rest)) := by
  induction fuel with
  | zero =>
    refine ⟨fun j rest h => absurd h (by have := jsize_pos j; omega),
      fun xs rest hne h => ?_, fun fs rest hne h => ?_⟩
    · cases xs with
      | nil => exact absurd rfl hne
      | cons x xs =>
        rw [jsizeItems] at h
        have := jsize_pos x
        omega
    · cases fs with
      | nil => exact absurd rfl hne
      | cons f fs =>
        rw [jsizeFields] at h
        have := jsize_pos f.2
        omega
  | succ n ih =>
    obtain ⟨ihV, ihI, ihF⟩ := ih
    refine ⟨?_, ?_, ?_⟩
    · intro j rest hsz
      cases j with
      | str s =>
        rw [Json.stringify]
        simp only [List.cons_append, List.append_assoc, List.singleton_append,
          List.nil_append]
        rw [parseVal_cons, if_pos rfl, parseStrBody_escape]
        rfl
      | arr xs =>
        rw [Json.stringify]
        simp only [List.cons_append, List.append_assoc, List.singleton_append,
          List.nil_append]
        rw [parseVal_cons, if_neg (by decide), if_pos rfl]
        cases xs with
        | nil =>
          rw [stringifyItems]
          simp
        | cons x xs2 =>
          obtain ⟨c, t2, hct, hc⟩ := head_stringifyItems_append x xs2 (']' :: rest)
          have hhead : (stringifyItems (x :: xs2) ++ ']' :: rest).head? = some c := by
            rw [hct]
            rfl
          rw [hhead, if_neg (fun hsome => hc (Option.some.inj hsome))]
          rw [ihI (x :: xs2) rest (by simp) (by rw [jsize] at hsz; omega)]
          rfl
      | obj fs =>
        rw [Json.stringify]
        simp only [List.cons_append, List.append_assoc, List.singleton_append,
          List.nil_append]
        rw [parseVal_cons, if_neg (by decide), if_neg (by decide), if_pos rfl]
        cases fs with
        | nil =>
          rw [stringifyFields]
          simp
        | cons f fs2 =>
          obtain ⟨k, v⟩ := f
          obtain ⟨t, ht⟩ := stringifyFields_cons k v fs2
          have hhead : (stringifyFields ((k, v) :: fs2) ++ '\x7d' :: rest).head? =
              some '"' := by
            rw [ht]
            rfl
          rw [hhead, if_neg (by decide)]
          rw [ihF ((k, v) :: fs2) rest (by simp) (by rw [jsize] at hsz; omega)]
          rfl
    · intro xs rest hne hsz
      cases xs with
      | nil => exact absurd rfl hne
      | cons x xs2 =>
        rw [parseItems_succ]
        cases xs2 with
        | nil =>
          rw [stringifyItems]
          rw [jsizeItems, jsizeItems] at hsz
          rw [ihV x (']' :: rest) (by omega)]
          simp
        | cons y ys =>
          rw [stringifyItems]
          simp only [List.append_assoc, List.cons_append]
          rw [jsizeItems] at hsz
          rw [ihV x (',' :: (stringifyItems (y :: ys) ++ ']' :: rest)) (by omega)]
          simp only [List.head?_cons, List.tail_cons]
          rw [if_neg (by decide), if_true]
          rw [ihI (y :: ys) rest (by simp) (by omega)]
    · intro fs rest hne hsz
      cases fs with
      | nil => exact absurd rfl hne
      | cons f fs2 =>
        obtain ⟨k, v⟩ := f
        rw [parseFields_succ]
        rw [jsizeFields] at hsz
        cases fs2 with
        | nil =>
          rw [stringifyFields]
          simp only [List.cons_append, List.append_assoc, List.nil_append,
            List.head?_cons, List.tail_cons]
          rw [if_true, parseStrBody_escape]
          simp only [List.head?_cons, List.tail_cons]
          rw [if_true]
          rw [ihV v ('\x7d' :: rest) (by simp at hsz; omega)]
          simp
        | cons g gs =>
          rw [stringifyFields]
          simp only [List.cons_append, List.append_assoc, List.nil_append,
            List.head?_cons, List.tail_cons]
          rw [if_true, parseStrBody_escape]
          simp only [List.head?_cons, List.tail_cons]
          rw [if_true]
          rw [ihV v (',' :: (stringifyFields (g :: gs) ++ '\x7d' :: rest))
            (by simp at hsz; omega)]
          simp only [List.head?_cons, List.tail_cons]
          rw [if_neg (by decide), if_true]
          rw [ihF (g :: gs) rest (by simp) (by simp at hsz; omega)]

theorem jsize_le_length (n : Nat) :
    (∀ j, jsize j ≤ n → jsize j ≤ (Json.stringify j).length) ∧
    (∀ xs, jsizeItems xs ≤ n → jsizeItems xs ≤ (stringifyItems xs).length + 1) ∧
    (∀ fs, jsizeFields fs ≤ n → jsizeFields fs ≤ (stringifyFields fs).length + 1) := by
  induction n with
  | zero =>
    refine ⟨fun j h => absurd h (by have := jsize_pos j; omega),
      fun xs h => ?_, fun fs h => ?_⟩
    · cases xs with
      | nil => simp [jsizeItems]
      | cons x xs =>
        rw [jsizeItems] at h
        have := jsize_pos x
        omega
    · cases fs with
      | nil => simp [jsizeFields]
      | cons f fs =>
        rw [jsizeFields] at h
        have := jsize_pos f.2
        omega
  | succ n ih =>
    obtain ⟨ihV, ihI, ihF⟩ := ih
    refine ⟨?_, ?_, ?_⟩
    · intro j hsz
      cases j with
      | str s => rw [jsize, Json.stringify]; simp
      | arr xs =>
        rw [jsize] at hsz ⊢
        rw [Json.stringify]
        have := ihI xs (by omega)
        simp only [List.length_cons, List.length_append, List.length_singleton]
        omega
      | obj fs =>
        rw [jsize] at hsz ⊢
        rw [Json.stringify]
        have := ihF fs (by omega)
        simp only [List.length_cons, List.length_append, List.length_singleton]
        omega
    · intro xs hsz
      cases xs with
      | nil => simp [jsizeItems]
      | cons x xs2 =>
        rw [jsizeItems] at hsz ⊢
        cases xs2 with
        | nil =>
          rw [stringifyItems]
          have := ihV x (by omega)
          rw [jsizeItems]
          omega
        | cons y ys =>
          rw [stringifyItems]
          have h1 := ihV x (by omega)
          have h2 := ihI (y :: ys) (by omega)
          simp only [List.length_append, List.length_cons]
          omega
    · intro fs hsz
      cases fs with
      | nil => simp [jsizeFields]
      | cons f fs2 =>
        obtain ⟨k, v⟩ := f
        rw [jsizeFields] at hsz ⊢
        cases fs2 with
        | nil =>
          rw [stringifyFields]
          have := ihV v (by simp at hsz ⊢; omega)
          rw [jsizeFields]
          simp only [List.length_cons, List.length_append]
          simp at hsz ⊢
          omega
        | cons g gs =>
          rw [stringifyFields]
          have h1 := ihV v (by simp at hsz ⊢; omega)
          have h2 := ihF (g :: gs) (by simp at hsz ⊢; omega)
          simp only [List.length_append, List.length_cons]
          simp at hsz ⊢
          omega

theorem Json.parse_stringify (j : Json) : Json.parse (Json.stringify j) = some j := by
  have hlen : jsize j ≤ (Json.stringify j).length :=
    (jsize_le_length (jsize j)).1 j le_rfl
  have h := (parse_roundtrip ((Json.stringify j).length + 1)).1 j []
    (le_trans hlen (Nat.le_succ _))
  rw [List.append_nil] at h
  unfold Json.parse
  rw [h]

theorem stringify_ne_nil (j : Json) : Json.stringify j ≠ [] := by
  rcases stringify_head j with ⟨t, h | h | h⟩ <;> simp [h]

theorem decodeEntry_entryToJson (e : IndexEntry) :
    decodeEntry (entryToJson e) = some e := by
  rw [entryToJson, decodeEntry]
  simp

theorem decodeIndex_indexToJson (es : List IndexEntry) :
    decodeIndex (indexToJson es) = some es := by
  rw [indexToJson, decodeIndex]
  induction es with
  | nil => rfl
  | cons e es ih =>
    simp only [List.map_cons, List.mapM_cons, decodeEntry_entryToJson]
    simp only [List.map] at ih
    rw [ih]
    rfl

theorem getField_storedWalletJson_wallet (n a w : Str) :
    (storedWalletJson n a w).getStr "wallet".toList = some w := rfl

theorem isStoredWalletVal_stringify (n a w : Str) :
    isStoredWalletVal (Json.stringify (storedWalletJson n a w)) = true := by
  unfold isStoredWalletVal
  rw [Json.parse_stringify]
  rfl

theorem isStoredWalletVal_index (es : List IndexEntry) :
    isStoredWalletVal (Json.stringify (indexToJson es)) = false := by
  unfold isStoredWalletVal
  rw [Json.parse_stringify]
  rfl

theorem walletKeyStr_inj (a b : Str) (h : walletKeyStr a = walletKeyStr b) : a = b := by
  rw [walletKeyStr, walletKeyStr] at h
  exact List.append_cancel_left h

theorem indexKeyStr_eq : indexKeyStr = walletKeyStr "index".toList := rfl

theorem addrOfKey_walletKeyStr (a : Str) : addrOfKey (walletKeyStr a) = some a := by
  rw [addrOfKey, walletKeyStr]
  rw [if_pos (by simp [List.take_left])]
  simp [List.drop_left]

theorem walletKeyStr_ne_indexKeyStr (a : Str) (h : a ≠ "index".toList) :
    walletKeyStr a ≠ indexKeyStr := by
  rw [indexKeyStr_eq]
  exact fun hk => h (walletKeyStr_inj _ _ hk)

theorem decrypt_encrypt (c : CryptoPrims) (saltHex ivHex m pw pw2 : Str)
    (hs : saltHex.length = 32) (hi : ivHex.length = 32) :
    decrypt c (encrypt c saltHex ivHex m pw) pw2 =
      c.aesDecrypt (c.aesEncrypt m (c.pbkdf2 pw saltHex (keySize / 32) iterations) ivHex)
        (c.pbkdf2 pw2 saltHex (keySize / 32) iterations) ivHex := by
  rw [encrypt, decrypt]
  have h1 : (saltHex ++ (ivHex ++ c.aesEncrypt m
      (c.pbkdf2 pw saltHex (keySize / 32) iterations) ivHex)).take 32 = saltHex := by
    rw [← hs]
    exact List.take_left saltHex _
  have h2 : (saltHex ++ (ivHex ++ c.aesEncrypt m
      (c.pbkdf2 pw saltHex (keySize / 32) iterations) ivHex)).drop 32 =
      ivHex ++ c.aesEncrypt m (c.pbkdf2 pw saltHex (keySize / 32) iterations) ivHex := by
    rw [← hs]
    exact List.drop_left saltHex _
  simp only [List.append_assoc] at h1 h2 ⊢
  rw [h1, h2]
  have h3 : (ivHex ++ c.aesEncrypt m
      (c.pbkdf2 pw saltHex (keySize / 32) iterations) ivHex).take 32 = ivHex := by
    rw [← hi]
    exact List.take_left ivHex _
  rw [h3]
  have h4 : (saltHex ++ (ivHex ++ c.aesEncrypt m
      (c.pbkdf2 pw saltHex (keySize / 32) iterations) ivHex)).drop 64 =
      c.aesEncrypt m (c.pbkdf2 pw saltHex (keySize / 32) iterations) ivHex := by
    rw [show (64 : Nat) = 32 + 32 from rfl, ← List.drop_drop]
    rw [show (saltHex ++ (ivHex ++ c.aesEncrypt m
      (c.pbkdf2 pw saltHex (keySize / 32) iterations) ivHex)).drop 32 =
      ivHex ++ c.aesEncrypt m (c.pbkdf2 pw saltHex (keySize / 32) iterations) ivHex from h2]
    rw [← hi]
    exact List.drop_left ivHex _
  simp only [List.append_assoc] at h4
  rw [h4]

theorem loadFromStorage_absent (st : Storage) (a : Str)
    (h : st.getItem (walletKeyStr a) = none) : loadFromStorage st a = .ok none := by
  unfold loadFromStorage
  rw [h]

theorem loadFromStorage_stored (st : Storage) (a v : Str) (j : Json)
    (hv : st.getItem (walletKeyStr a) = some v) (hne : ¬ v = [])
    (hp : Json.parse v = some j) : loadFromStorage st a = .ok (some j) := by
  unfold loadFromStorage
  rw [hv]
  simp only [if_neg hne, hp]

theorem indexEntriesOf_absent (st : Storage)
    (h : st.getItem indexKeyStr = none) : indexEntriesOf st = some [] := by
  unfold indexEntriesOf
  rw [h]
  rfl

theorem indexEntriesOf_stringify (st : Storage) (es : List IndexEntry)
    (h : st.getItem indexKeyStr = some (Json.stringify (indexToJson es))) :
    indexEntriesOf st = some es := by
  unfold indexEntriesOf
  rw [h]
  simp only [if_neg (stringify_ne_nil (indexToJson es)), Json.parse_stringify]
  exact decodeIndex_indexToJson es

theorem storeWallet_success (c : CryptoPrims) (salt iv : Str) (w : Wallet)
    (name pw : Str) (st : Storage) (es : List IndexEntry)
    (hW : st.getItem (walletKeyStr w.cosmosAddress) = none)
    (hI : indexEntriesOf st = some es)
    (hN : es.find? (fun e => name == e.name) = none) :
    storeWallet c salt iv w name pw st =
      (.ok (), (st.setItem indexKeyStr
          (Json.stringify (indexToJson (es ++ [⟨name, w.cosmosAddress⟩])))).setItem
        (walletKeyStr w.cosmosAddress)
        (Json.stringify (storedWalletJson name w.cosmosAddress
          (encrypt c salt iv (Json.stringify (walletToJson w)) pw)))) := by
  unfold storeWallet
  rw [loadFromStorage_absent st _ hW]
  unfold addToStorage addToIndex getWalletIndex
  rw [hI]
  simp only [jsTruthy, Bool.false_eq_true, if_false, hN, Option.isSome_none]

theorem getStoredWallet_found (c : CryptoPrims) (a pw v : Str) (j : Json) (st : Storage)
    (hv : st.getItem (walletKeyStr a) = some v) (hne : ¬ v = [])
    (hp : Json.parse v = some j) (ht : j.truthy = true) :
    getStoredWallet c a pw st =
      (match tryDecryptParse c j pw with
       | some w2 => .ok w2
       | none => .error incorrectMsg, st) := by
  unfold getStoredWallet
  rw [loadFromStorage_stored st a v j hv hne hp]
  simp only [ht, if_true]

theorem getStoredWallet_notfound (c : CryptoPrims) (a pw : Str) (st : Storage)
    (h : st.getItem (walletKeyStr a) = none) :
    getStoredWallet c a pw st = (.error noWalletMsg, st) := by
  unfold getStoredWallet
  rw [loadFromStorage_absent st _ h]

theorem testPassword_found (c : CryptoPrims) (a pw v : Str) (j : Json) (st : Storage)
    (hv : st.getItem (walletKeyStr a) = some v) (hne : ¬ v = [])
    (hp : Json.parse v = some j) (ht : j.truthy = true) :
    testPassword c a pw st =
      (if (tryDecryptParse c j pw).isSome then .ok () else .error pwIncorrectMsg, st) := by
  unfold testPassword
  rw [loadFromStorage_stored st a v j hv hne hp]
  simp only [ht, if_true]

theorem testPassword_notfound (c : CryptoPrims) (a pw : Str) (st : Storage)
    (h : st.getItem (walletKeyStr a) = none) :
    testPassword c a pw st = (.error noWalletTestMsg, st) := by
  unfold testPassword
  rw [loadFromStorage_absent st _ h]

theorem removeWallet_notfound (c : CryptoPrims) (a pw : Str) (st : Storage)
    (h : st.getItem (walletKeyStr a) = none) :
    removeWallet c a pw st = (.error noWalletMsg, st) := by
  unfold removeWallet
  rw [loadFromStorage_absent st _ h]
  rfl

theorem removeWallet_badpw (c : CryptoPrims) (a pw v : Str) (j : Json) (st : Storage)
    (hv : st.getItem (walletKeyStr a) = some v) (hne : ¬ v = [])
    (hp : Json.parse v = some j) (ht : j.truthy = true)
    (hd : tryDecryptParse c j pw = none) :
    removeWallet c a pw st = (.error pwIncorrectMsg, st) := by
  unfold removeWallet
  rw [loadFromStorage_stored st a v j hv hne hp]
  rw [testPassword_found c a pw v j st hv hne hp ht]
  simp only [jsTruthy, ht, if_true, hd, Option.isSome_none, Bool.false_eq_true, if_false]

theorem removeWallet_success (c : CryptoPrims) (a pw v : Str) (j : Json)
    (st : Storage) (es : List IndexEntry)
    (hv : st.getItem (walletKeyStr a) = some v) (hne : ¬ v = [])
    (hp : Json.parse v = some j) (ht : j.truthy = true)
    (hd : (tryDecryptParse c j pw).isSome = true)
    (hI : indexEntriesOf st = some es) :
    removeWallet c a pw st =
      (.ok (), (st.setItem indexKeyStr
          (Json.stringify (indexToJson (es.filter (fun e => e.address != a))))).removeItem
        (walletKeyStr a)) := by
  unfold removeWallet
  rw [loadFromStorage_stored st a v j hv hne hp]
  rw [testPassword_found c a pw v j st hv hne hp ht]
  simp only [jsTruthy, ht, if_true, hd]
  unfold removeFromStorage removeFromIndex getWalletIndex
  rw [hI]

theorem getStoredWallet_state (c : CryptoPrims) (a pw : Str) (st : Storage) :
    (getStoredWallet c a pw st).2 = st := rfl

theorem testPassword_state (c : CryptoPrims) (a pw : Str) (st : Storage) :
    (testPassword c a pw st).2 = st := rfl

/-- Claim C10: `getWalletIndex` on a store whose index key was never written
returns the empty sequence rather than failing, and leaves the store
unchanged. -/
theorem claim10_index_default (st : Storage)
    (h : st.getItem indexKeyStr = none) :
    getWalletIndex st = (.ok [], st) := by
  unfold getWalletIndex
  rw [indexEntriesOf_absent st h]

theorem claim10_index_default_witness : getWalletIndex [] = (.ok [], []) :=
  claim10_index_default [] rfl

/-- Claim C1: storing a wallet under a fresh address and a fresh name and
then loading it back under the same password returns exactly the stored
wallet (as the JSON value the module handed to `JSON.stringify`), the store
staying as the store left it.  The cipher hypothesis is the AES round-trip
the external library provides; the length hypotheses record that the salt
and iv are 32 hex characters. -/
theorem claim1_roundtrip (c : CryptoPrims) (salt iv : Str) (w : Wallet)
    (name pw : Str) (st st2 : Storage) (es : List IndexEntry)
    (hdec : ∀ m k i, c.aesDecrypt (c.aesEncrypt m k i) k i = some m)
    (hsalt : salt.length = 32) (hiv : iv.length = 32)
    (hW : st.getItem (walletKeyStr w.cosmosAddress) = none)
    (hI : indexEntriesOf st = some es)
    (hN : ∀ e ∈ es, e.name ≠ name)
    (hok : storeWallet c salt iv w name pw st = (Except.ok (), st2)) :
    getStoredWallet c w.cosmosAddress pw st2 =
      (Except.ok (walletToJson w), st2) := by
  have hfind : es.find? (fun e => name == e.name) = none := by
    rw [List.find?_eq_none]
    intro e he hb
    exact hN e he (eq_of_beq hb).symm
  have hrun := storeWallet_success c salt iv w name pw st es hW hI hfind
  have hst2 : st2 = (st.setItem indexKeyStr
      (Json.stringify (indexToJson (es ++ [⟨name, w.cosmosAddress⟩])))).setItem
        (walletKeyStr w.cosmosAddress)
        (Json.stringify (storedWalletJson name w.cosmosAddress
          (encrypt c salt iv (Json.stringify (walletToJson w)) pw))) :=
    congrArg Prod.snd (hok.symm.trans hrun)
  have hget : st2.getItem (walletKeyStr w.cosmosAddress) =
      some (Json.stringify (storedWalletJson name w.cosmosAddress
        (encrypt c salt iv (Json.stringify (walletToJson w)) pw))) := by
    rw [hst2, getItem_setItem]
    rw [if_pos rfl]
  have htry : tryDecryptParse c (storedWalletJson name w.cosmosAddress
      (encrypt c salt iv (Json.stringify (walletToJson w)) pw)) pw =
      some (walletToJson w) := by
    unfold tryDecryptParse
    show (decrypt c (encrypt c salt iv (Json.stringify (walletToJson w)) pw) pw).bind
      (fun d => Json.parse d) = some (walletToJson w)
    rw [decrypt_encrypt c salt iv _ pw pw hsalt hiv, hdec]
    show Json.parse (Json.stringify (walletToJson w)) = some (walletToJson w)
    exact Json.parse_stringify (walletToJson w)
  rw [getStoredWallet_found c w.cosmosAddress pw _ _ st2 hget
    (stringify_ne_nil _) (Json.parse_stringify _) rfl]
  rw [htry]

theorem claim1_roundtrip_witness :
    getStoredWallet cId wW.cosmosAddress "pw".toList
        (storeWallet cId saltW ivW wW "name1".toList "pw".toList []).2 =
      (Except.ok (walletToJson wW),
        (storeWallet cId saltW ivW wW "name1".toList "pw".toList []).2) :=
  claim1_roundtrip cId saltW ivW wW "name1".toList "pw".toList []
    (storeWallet cId saltW ivW wW "name1".toList "pw".toList []).2 []
    (fun _ _ _ => rfl) rfl rfl rfl rfl
    (fun e he => absurd he (List.not_mem_nil e)) rfl

/-- Claim C2: on a store holding a well-formed wallet entry, any password
under which the decryption output fails to parse as JSON — the cryptographic
consequence of a wrong password, and likewise the effect of corrupted
ciphertext or a decryption failure — makes `getStoredWallet`, `testPassword`
and `removeWallet` fail with their incorrect-password errors, with the store
unchanged and no data returned; when instead no entry exists each raises its
not-found error, and the incorrect-password messages are distinguishable
from the not-found messages. -/
theorem claim2_wrong_password (c : CryptoPrims) (a pw v : Str) (j : Json)
    (st : Storage)
    (hv : st.getItem (walletKeyStr a) = some v) (hne : ¬ v = [])
    (hp : Json.parse v = some j) (ht : j.truthy = true)
    (hbad : tryDecryptParse c j pw = none) :
    getStoredWallet c a pw st = (.error incorrectMsg, st) ∧
    testPassword c a pw st = (.error pwIncorrectMsg, st) ∧
    removeWallet c a pw st = (.error pwIncorrectMsg, st) ∧
    (∀ st0 : Storage, st0.getItem (walletKeyStr a) = none →
      getStoredWallet c a pw st0 = (.error noWalletMsg, st0) ∧
      testPassword c a pw st0 = (.error noWalletTestMsg, st0) ∧
      removeWallet c a pw st0 = (.error noWalletMsg, st0)) ∧
    incorrectMsg ≠ noWalletMsg ∧ incorrectMsg ≠ noWalletTestMsg ∧
    pwIncorrectMsg ≠ noWalletMsg ∧ pwIncorrectMsg ≠ noWalletTestMsg := by
  refine ⟨?_, ?_, removeWallet_badpw c a pw v j st hv hne hp ht hbad, ?_,
    by decide, by decide, by decide, by decide⟩
  · rw [getStoredWallet_found c a pw v j st hv hne hp ht, hbad]
  · rw [testPassword_found c a pw v j st hv hne hp ht]
    simp [hbad]
  · intro st0 h0
    exact ⟨getStoredWallet_notfound c a pw st0 h0,
      testPassword_notfound c a pw st0 h0,
      removeWallet_notfound c a pw st0 h0⟩

theorem claim2_wrong_password_witness :
    getStoredWallet cFail wW.cosmosAddress "qq".toList stC2 =
      (.error incorrectMsg, stC2) :=
  (claim2_wrong_password cFail wW.cosmosAddress "qq".toList vC2 jC2 stC2
    rfl (stringify_ne_nil _) (Json.parse_stringify _) rfl rfl).1

theorem match_option_val_true (o : Option Str) (f : Str → Bool) :
    (match o with | some v => f v | none => false) = true ↔
      ∃ v, o = some v ∧ f v = true := by
  cases o <;> simp

theorem match_addr_true (o : Option Str) (b : Bool) (g : Str → Bool) :
    (match o with | some a => !b || g a | none => true) = true ↔
      (∀ a, o = some a → b = true → g a = true) := by
  cases o with
  | none => simp
  | some a =>
    cases b <;> simp

theorem addrOfKey_eq_some (k a : Str) (h : addrOfKey k = some a) :
    k = walletKeyStr a := by
  unfold addrOfKey at h
  by_cases htake : k.take keyPre.length = keyPre
  · rw [if_pos htake] at h
    have h2 := Option.some.inj h
    rw [walletKeyStr, ← h2]
    nth_rewrite 1 [← htake]
    exact (List.take_append_drop keyPre.length k).symm
  · rw [if_neg htake] at h
    exact absurd h (by simp)

theorem decodeIndex_eq_some (j : Json) (es : List IndexEntry)
    (h : decodeIndex j = some es) : ∃ xs, j = .arr xs := by
  cases j with
  | arr xs => exact ⟨xs, rfl⟩
  | str s =>
    rw [show decodeIndex (Json.str s) = none from rfl] at h
    exact absurd h (by simp)
  | obj fs =>
    rw [show decodeIndex (Json.obj fs) = none from rfl] at h
    exact absurd h (by simp)

theorem tryDecryptParse_arr (c : CryptoPrims) (xs : List Json) (pw : Str) :
    tryDecryptParse c (.arr xs) pw = none := rfl

theorem canonicalInv_iff (st : Storage) :
    canonicalInv st = true ↔
      (st.map Prod.fst).Nodup ∧
      ∃ es, indexEntriesOf st = some es ∧
        (es.map IndexEntry.name).Nodup ∧
        (es.map IndexEntry.address).Nodup ∧
        (∀ e ∈ es, e.address ≠ "index".toList) ∧
        (∀ e ∈ es, ∃ v, st.getItem (walletKeyStr e.address) = some v ∧
          isStoredWalletVal v = true) ∧
        (∀ p ∈ st, ∀ a2, addrOfKey p.1 = some a2 → isStoredWalletVal p.2 = true →
          ∃ e ∈ es, e.address = a2) := by
  unfold canonicalInv
  cases hio : indexEntriesOf st with
  | none => simp
  | some es =>
    simp only [Bool.and_eq_true]
    constructor
    · rintro ⟨hkeys, ⟨⟨⟨⟨hnames, haddrs⟩, hnoidx⟩, hwf⟩, hcov⟩⟩
      refine ⟨(nodupKeys_iff _).mp hkeys, es, rfl, (nodupKeys_iff _).mp hnames,
        (nodupKeys_iff _).mp haddrs, ?_, ?_, ?_⟩
      · intro e he heq
        rw [Bool.not_eq_true', List.any_eq_false] at hnoidx
        exact hnoidx e he (by rw [heq]; exact beq_self_eq_true _)
      · intro e he
        rw [List.all_eq_true] at hwf
        exact (match_option_val_true _ _).mp (hwf e he)
      · intro p hp a2 ha2 hval
        rw [List.all_eq_true] at hcov
        have := (match_addr_true _ _ _).mp (hcov p hp) a2 ha2 hval
        rw [List.any_eq_true] at this
        obtain ⟨e, he, heq⟩ := this
        exact ⟨e, he, eq_of_beq heq⟩
    · rintro ⟨hkeys, es2, hes2, hnames, haddrs, hnoidx, hwf, hcov⟩
      have hes : es2 = es := Option.some.inj (hes2.symm.trans rfl)
      subst hes
      refine ⟨(nodupKeys_iff _).mpr hkeys, ⟨⟨⟨⟨(nodupKeys_iff _).mpr hnames,
        (nodupKeys_iff _).mpr haddrs⟩, ?_⟩, ?_⟩, ?_⟩⟩
      · rw [Bool.not_eq_true', List.any_eq_false]
        intro e he
        simpa using hnoidx e he
      · rw [List.all_eq_true]
        intro e he
        exact (match_option_val_true _ _).mpr (hwf e he)
      · rw [List.all_eq_true]
        intro p hp
        refine (match_addr_true _ _ _).mpr ?_
        intro a2 ha2 hval
        rw [List.any_eq_true]
        obtain ⟨e, he, heq⟩ := hcov p hp a2 ha2 hval
        exact ⟨e, he, by rw [heq]; exact beq_self_eq_true _⟩

theorem storeWallet_proceed_inv (st : Storage) (es : List IndexEntry)
    (name addr ct : Str)
    (hkeys : (st.map Prod.fst).Nodup)
    (hnames : (es.map IndexEntry.name).Nodup)
    (haddrs : (es.map IndexEntry.address).Nodup)
    (hnoidx : ∀ e ∈ es, e.address ≠ "index".toList)
    (hwf : ∀ e ∈ es, ∃ v, st.getItem (walletKeyStr e.address) = some v ∧
      isStoredWalletVal v = true)
    (hcov : ∀ p ∈ st, ∀ a2, addrOfKey p.1 = some a2 → isStoredWalletVal p.2 = true →
      ∃ e ∈ es, e.address = a2)
    (hA : addr ≠ "index".toList)
    (hNoVal : ∀ v2, st.getItem (walletKeyStr addr) = some v2 →
      isStoredWalletVal v2 = false)
    (hname_new : ∀ e ∈ es, e.name ≠ name) :
    canonicalInv ((st.setItem indexKeyStr
        (Json.stringify (indexToJson (es ++ [⟨name, addr⟩])))).setItem
      (walletKeyStr addr) (Json.stringify (storedWalletJson name addr ct))) = true := by
  have hwkik : walletKeyStr addr ≠ indexKeyStr := walletKeyStr_ne_indexKeyStr addr hA
  have haddr_notin : ∀ e ∈ es, e.address ≠ addr := by
    intro e he heq
    obtain ⟨v, hv, hval⟩ := hwf e he
    rw [heq] at hv
    rw [hNoVal v hv] at hval
    exact Bool.false_ne_true hval
  rw [canonicalInv_iff]
  refine ⟨?_, es ++ [⟨name, addr⟩], ?_, ?_, ?_, ?_, ?_, ?_⟩
  · exact nodup_keys_setItem _ _ _ (nodup_keys_setItem _ _ _ hkeys)
  · apply indexEntriesOf_stringify
    rw [getItem_setItem, if_neg (fun hh => hwkik hh.symm), getItem_setItem, if_pos rfl]
  · rw [List.map_append, List.nodup_append]
    refine ⟨hnames, by simp, ?_⟩
    intro x hx hy
    obtain ⟨e, he, hex⟩ := List.mem_map.mp hx
    simp only [List.map_cons, List.map_nil, List.mem_singleton] at hy
    exact hname_new e he (hex.trans hy)
  · rw [List.map_append, List.nodup_append]
    refine ⟨haddrs, by simp, ?_⟩
    intro x hx hy
    obtain ⟨e, he, hex⟩ := List.mem_map.mp hx
    simp only [List.map_cons, List.map_nil, List.mem_singleton] at hy
    exact haddr_notin e he (hex.trans hy)
  · intro e he
    rcases List.mem_append.mp he with he | he
    · exact hnoidx e he
    · rw [List.mem_singleton] at he
      rw [he]
      exact hA
  · intro e he
    rcases List.mem_append.mp he with he | he
    · obtain ⟨v, hv, hval⟩ := hwf e he
      refine ⟨v, ?_, hval⟩
      rw [getItem_setItem,
        if_neg (fun hh => haddr_notin e he (walletKeyStr_inj _ _ hh)),
        getItem_setItem,
        if_neg (fun hh => hnoidx e he (walletKeyStr_inj _ _ (hh.trans indexKeyStr_eq)))]
      exact hv
    · rw [List.mem_singleton] at he
      rw [he]
      refine ⟨_, ?_, isStoredWalletVal_stringify name addr ct⟩
      rw [getItem_setItem, if_pos rfl]
  · intro p hp a2 ha2 hval
    rcases mem_setItem _ _ _ p hp with hpw | ⟨hp1, hpne⟩
    · rw [hpw] at ha2
      have := walletKeyStr_inj _ _ (addrOfKey_eq_some _ _ ha2).symm
      refine ⟨⟨name, addr⟩, List.mem_append_right _ (by simp), this.symm⟩
    · rcases mem_setItem _ _ _ p hp1 with hpi | ⟨hp0, hpne2⟩
      · rw [hpi] at hval
        rw [isStoredWalletVal_index] at hval
        exact absurd hval Bool.false_ne_true
      · obtain ⟨e, he, heq⟩ := hcov p hp0 a2 ha2 hval
        exact ⟨e, List.mem_append_left _ he, heq⟩

theorem removeWallet_proceed_inv (st : Storage) (es : List IndexEntry) (addr : Str)
    (hkeys : (st.map Prod.fst).Nodup)
    (hnames : (es.map IndexEntry.name).Nodup)
    (haddrs : (es.map IndexEntry.address).Nodup)
    (hnoidx : ∀ e ∈ es, e.address ≠ "index".toList)
    (hwf : ∀ e ∈ es, ∃ v, st.getItem (walletKeyStr e.address) = some v ∧
      isStoredWalletVal v = true)
    (hcov : ∀ p ∈ st, ∀ a2, addrOfKey p.1 = some a2 → isStoredWalletVal p.2 = true →
      ∃ e ∈ es, e.address = a2)
    (hA : addr ≠ "index".toList) :
    canonicalInv ((st.setItem indexKeyStr
        (Json.stringify (indexToJson (es.filter (fun e => e.address != addr))))).removeItem
      (walletKeyStr addr)) = true := by
  have hwkik : walletKeyStr addr ≠ indexKeyStr := walletKeyStr_ne_indexKeyStr addr hA
  rw [canonicalInv_iff]
  refine ⟨?_, es.filter (fun e => e.address != addr), ?_, ?_, ?_, ?_, ?_, ?_⟩
  · exact nodup_keys_removeItem _ _ (nodup_keys_setItem _ _ _ hkeys)
  · apply indexEntriesOf_stringify
    rw [getItem_removeItem, if_neg (fun hh => hwkik hh.symm), getItem_setItem,
      if_pos rfl]
  · exact (((List.filter_sublist es).map IndexEntry.name).nodup) hnames
  · exact (((List.filter_sublist es).map IndexEntry.address).nodup) haddrs
  · intro e he
    exact hnoidx e (List.mem_filter.mp he).1
  · intro e he
    obtain ⟨he0, hne⟩ := List.mem_filter.mp he
    have hnea : e.address ≠ addr := by simpa [bne_iff_ne] using hne
    obtain ⟨v, hv, hval⟩ := hwf e he0
    refine ⟨v, ?_, hval⟩
    rw [getItem_removeItem, if_neg (fun hh => hnea (walletKeyStr_inj _ _ hh)),
      getItem_setItem,
      if_neg (fun hh => hnoidx e he0 (walletKeyStr_inj _ _ (hh.trans indexKeyStr_eq)))]
    exact hv
  · intro p hp a2 ha2 hval
    obtain ⟨hp1, hpne⟩ := (mem_removeItem _ _ p).mp hp
    rcases mem_setItem _ _ _ p hp1 with hpi | ⟨hp0, hpne2⟩
    · rw [hpi] at hval
      rw [isStoredWalletVal_index] at hval
      exact absurd hval Bool.false_ne_true
    · obtain ⟨e, he, heq⟩ := hcov p hp0 a2 ha2 hval
      have hpk : p.1 = walletKeyStr a2 := addrOfKey_eq_some _ _ ha2
      have ha2ne : a2 ≠ addr := fun hh => hpne (by rw [hpk, hh])
      refine ⟨e, List.mem_filter.mpr ⟨he, ?_⟩, heq⟩
      simpa [bne_iff_ne] using heq.trans_ne ha2ne

theorem truthy_false (j : Json) (h : j.truthy = false) : j = .str [] := by
  cases j with
  | str s =>
    rw [Json.truthy] at h
    simp at h
    rw [h]
  | arr xs => exact absurd h (by rw [Json.truthy]; simp)
  | obj fs => exact absurd h (by rw [Json.truthy]; simp)

theorem isStoredWalletVal_parse_none (v : Str) (hp : Json.parse v = none) :
    isStoredWalletVal v = false := by
  unfold isStoredWalletVal
  rw [hp]

theorem isStoredWalletVal_parse_str (v s : Str) (hp : Json.parse v = some (.str s)) :
    isStoredWalletVal v = false := by
  unfold isStoredWalletVal
  rw [hp]
  rfl

theorem addToStorage_canonical (st : Storage) (es : List IndexEntry)
    (name addr ct : Str)
    (hio : indexEntriesOf st = some es)
    (hInv : canonicalInv st = true)
    (hA : addr ≠ "index".toList)
    (hNoVal : ∀ v2, st.getItem (walletKeyStr addr) = some v2 →
      isStoredWalletVal v2 = false) :
    canonicalInv (addToStorage st name addr ct).2 = true := by
  obtain ⟨hkeys, es2, hio2, hnames, haddrs, hnoidx, hwf, hcov⟩ :=
    (canonicalInv_iff st).mp hInv
  have hes : es2 = es := Option.some.inj (hio2.symm.trans hio)
  subst hes
  unfold addToStorage addToIndex getWalletIndex
  rw [hio]
  cases hfind : es2.find? (fun e => name == e.name) with
  | some e =>
    simp only [hfind, Option.isSome_some, if_true]
    exact hInv
  | none =>
    simp only [hfind, Option.isSome_none, Bool.false_eq_true, if_false]
    exact storeWallet_proceed_inv st es2 name addr ct hkeys hnames haddrs hnoidx
      hwf hcov hA hNoVal
      (fun e he heq => (List.find?_eq_none.mp hfind e he)
        (by rw [heq]; exact beq_self_eq_true _))

theorem storeWallet_preserves_canonical (c : CryptoPrims) (salt iv : Str)
    (w : Wallet) (name pw : Str) (st : Storage)
    (hInv : canonicalInv st = true) (hA : w.cosmosAddress ≠ "index".toList) :
    canonicalInv (storeWallet c salt iv w name pw st).2 = true := by
  obtain ⟨hkeys, es, hio, hnames, haddrs, hnoidx, hwf, hcov⟩ :=
    (canonicalInv_iff st).mp hInv
  unfold storeWallet
  cases hga : st.getItem (walletKeyStr w.cosmosAddress) with
  | none =>
    rw [loadFromStorage_absent st _ hga]
    simp only [jsTruthy, Bool.false_eq_true, if_false]
    exact addToStorage_canonical st es name w.cosmosAddress _ hio hInv hA
      (fun v2 hv2 => absurd (hga.symm.trans hv2) (by simp))
  | some v =>
    by_cases hv : v = []
    · have hl : loadFromStorage st w.cosmosAddress = .ok none := by
        unfold loadFromStorage
        rw [hga]
        simp [hv]
      rw [hl]
      simp only [jsTruthy, Bool.false_eq_true, if_false]
      refine addToStorage_canonical st es name w.cosmosAddress _ hio hInv hA ?_
      intro v2 hv2
      have hvv : v2 = v := (Option.some.inj (hga.symm.trans hv2)).symm
      rw [hvv, hv]
      rfl
    · cases hp : Json.parse v with
      | none =>
        have hl : loadFromStorage st w.cosmosAddress = .error jsonErrMsg := by
          unfold loadFromStorage
          rw [hga]
          simp only [if_neg hv, hp]
        rw [hl]
        exact hInv
      | some j =>
        rw [loadFromStorage_stored st _ v j hga hv hp]
        cases ht : j.truthy with
        | true =>
          simp only [jsTruthy, ht, if_true]
          exact hInv
        | false =>
          simp only [jsTruthy, ht, Bool.false_eq_true, if_false]
          refine addToStorage_canonical st es name w.cosmosAddress _ hio hInv hA ?_
          intro v2 hv2
          have hvv : v2 = v := (Option.some.inj (hga.symm.trans hv2)).symm
          rw [hvv]
          exact isStoredWalletVal_parse_str v [] (by rw [hp, truthy_false j ht])

theorem removeWallet_preserves_canonical (c : CryptoPrims) (a pw : Str)
    (st : Storage) (hInv : canonicalInv st = true) :
    canonicalInv (removeWallet c a pw st).2 = true := by
  obtain ⟨hkeys, es, hio, hnames, haddrs, hnoidx, hwf, hcov⟩ :=
    (canonicalInv_iff st).mp hInv
  unfold removeWallet
  cases hga : st.getItem (walletKeyStr a) with
  | none =>
    rw [loadFromStorage_absent st _ hga]
    simp only [jsTruthy, Bool.false_eq_true, if_false]
    exact hInv
  | some v =>
    by_cases hv : v = []
    · have hl : loadFromStorage st a = .ok none := by
        unfold loadFromStorage
        rw [hga]
        simp [hv]
      rw [hl]
      simp only [jsTruthy, Bool.false_eq_true, if_false]
      exact hInv
    · cases hp : Json.parse v with
      | none =>
        have hl : loadFromStorage st a = .error jsonErrMsg := by
          unfold loadFromStorage
          rw [hga]
          simp only [if_neg hv, hp]
        rw [hl]
        exact hInv
      | some j =>
        rw [loadFromStorage_stored st _ v j hga hv hp]
        cases ht : j.truthy with
        | false =>
          simp only [jsTruthy, ht, Bool.false_eq_true, if_false]
          exact hInv
        | true =>
          simp only [jsTruthy, ht, if_true]
          rw [testPassword_found c a pw v j st hga hv hp ht]
          cases hd : (tryDecryptParse c j pw).isSome with
          | false =>
            simp only [hd, Bool.false_eq_true, if_false]
            exact hInv
          | true =>
            simp only [hd, if_true]
            by_cases hA : a = "index".toList
            · exfalso
              have hga2 : st.getItem indexKeyStr = some v := by
                rw [indexKeyStr_eq, ← hA]
                exact hga
              have hform : indexEntriesOf st = (Json.parse v).bind decodeIndex := by
                unfold indexEntriesOf
                rw [hga2]
                simp only [if_neg hv]
              rw [hio, hp] at hform
              have hdec : decodeIndex j = some es := by
                simpa using hform.symm
              obtain ⟨xs, hxs⟩ := decodeIndex_eq_some j es hdec
              rw [hxs, tryDecryptParse_arr] at hd
              simp at hd
            · unfold removeFromStorage removeFromIndex getWalletIndex
              rw [hio]
              exact removeWallet_proceed_inv st es a hkeys hnames haddrs hnoidx
                hwf hcov hA

set_option maxRecDepth 100000 in
/-- Counterexample to claim C3 as stated: the store `stDangle` satisfies the
stated invariant, `storeWallet` on it succeeds, and the resulting store
violates the stated invariant — the freshly stored address now appears twice
in the index. -/
theorem claim3_invariant_counterexample :
    storeInv stDangle = true ∧
    (storeWallet cId saltW ivW wDangle "m".toList "pw".toList stDangle).1 =
      Except.ok () ∧
    storeInv (storeWallet cId saltW ivW wDangle "m".toList "pw".toList
      stDangle).2 = false := by
  refine ⟨by decide, rfl, by decide⟩

/-- Claim C3, amended: the stated invariant is too weak — it is not
preserved from stores it admits (see the counterexample), and the reserved
address `index` collides with the index storage key.  The amended claim:
the strengthened invariant `canonicalInv` — key uniqueness, a decodable
index with unique names and unique addresses none of which is the literal
`index`, every indexed address backed by a well-formed wallet entry and
every well-formed wallet entry indexed — holds for the empty store and is
preserved by every successful or failing execution of the four operations,
provided the wallet stored by `storeWallet` does not use the literal
address `index`. -/
theorem claim3_invariant_preserved :
    canonicalInv [] = true ∧
    (∀ c salt iv (w : Wallet) name pw st, canonicalInv st = true →
      w.cosmosAddress ≠ "index".toList →
      canonicalInv (storeWallet c salt iv w name pw st).2 = true) ∧
    (∀ c a pw st, canonicalInv st = true →
      canonicalInv (removeWallet c a pw st).2 = true) ∧
    (∀ c a pw st, canonicalInv st = true →
      canonicalInv (getStoredWallet c a pw st).2 = true) ∧
    (∀ c a pw st, canonicalInv st = true →
      canonicalInv (testPassword c a pw st).2 = true) := by
  refine ⟨by decide, ?_, ?_, ?_, ?_⟩
  · intro c salt iv w name pw st hInv hA
    exact storeWallet_preserves_canonical c salt iv w name pw st hInv hA
  · intro c a pw st hInv
    exact removeWallet_preserves_canonical c a pw st hInv
  · intro c a pw st hInv
    rw [getStoredWallet_state]
    exact hInv
  · intro c a pw st hInv
    rw [testPassword_state]
    exact hInv

set_option maxRecDepth 100000 in
theorem claim3_invariant_preserved_witness :
    canonicalInv (storeWallet cId saltW ivW wW "name1".toList "pw".toList []).2 =
      true :=
  claim3_invariant_preserved.2.1 cId saltW ivW wW "name1".toList "pw".toList []
    (by decide) (by decide)

/-- Claim C4: `storeWallet` on an address that already has a (well-formed)
entry fails with the duplicate-address error before writing anything; on a
fresh address but a name already in the index (for a different address) it
fails with the duplicate-name error, again leaving the store unchanged. -/
theorem claim4_store_duplicates :
    (∀ (c : CryptoPrims) (salt iv : Str) (w : Wallet) (name pw : Str)
      (st : Storage) (v : Str) (j : Json),
      st.getItem (walletKeyStr w.cosmosAddress) = some v → ¬ v = [] →
      Json.parse v = some j → j.truthy = true →
      storeWallet c salt iv w name pw st = (.error alreadyStoredMsg, st)) ∧
    (∀ (c : CryptoPrims) (salt iv : Str) (w : Wallet) (name pw : Str)
      (st : Storage) (es : List IndexEntry) (e : IndexEntry),
      st.getItem (walletKeyStr w.cosmosAddress) = none →
      indexEntriesOf st = some es → e ∈ es → e.name = name →
      e.address ≠ w.cosmosAddress →
      storeWallet c salt iv w name pw st = (.error dupNameMsg, st)) := by
  constructor
  · intro c salt iv w name pw st v j hv hne hp ht
    unfold storeWallet
    rw [loadFromStorage_stored st _ v j hv hne hp]
    simp only [jsTruthy, ht, if_true]
  · intro c salt iv w name pw st es e hW hio he hname haddr
    unfold storeWallet
    rw [loadFromStorage_absent st _ hW]
    simp only [jsTruthy, Bool.false_eq_true, if_false]
    unfold addToStorage addToIndex getWalletIndex
    rw [hio]
    have hfind : (es.find? (fun x => name == x.name)).isSome = true := by
      cases hf : es.find? (fun x => name == x.name) with
      | some x => rfl
      | none =>
        exact absurd (by rw [hname]; exact beq_self_eq_true name)
          (List.find?_eq_none.mp hf e he)
    simp only [hfind, if_true]

theorem claim4_store_duplicates_witness :
    storeWallet cFail saltW ivW wW "other".toList "pw2".toList stC2 =
      (.error alreadyStoredMsg, stC2) :=
  claim4_store_duplicates.1 cFail saltW ivW wW "other".toList "pw2".toList stC2
    vC2 jC2 rfl (stringify_ne_nil _) (Json.parse_stringify _) rfl

/-- Claim C5: `removeWallet` fails with the not-found error when no entry
exists for the address and with the incorrect-password error when the
decryption output does not parse, the store unchanged in both cases; when
the password verifies, and only then, it rewrites the index without the
matching entries and deletes the wallet entry. -/
theorem claim5_remove_wallet :
    (∀ (c : CryptoPrims) (a pw : Str) (st : Storage),
      st.getItem (walletKeyStr a) = none →
      removeWallet c a pw st = (.error noWalletMsg, st)) ∧
    (∀ (c : CryptoPrims) (a pw : Str) (st : Storage) (v : Str) (j : Json),
      st.getItem (walletKeyStr a) = some v → ¬ v = [] → Json.parse v = some j →
      j.truthy = true → tryDecryptParse c j pw = none →
      removeWallet c a pw st = (.error pwIncorrectMsg, st)) ∧
    (∀ (c : CryptoPrims) (a pw : Str) (st : Storage) (v : Str) (j : Json)
      (es : List IndexEntry),
      st.getItem (walletKeyStr a) = some v → ¬ v = [] → Json.parse v = some j →
      j.truthy = true → (tryDecryptParse c j pw).isSome = true →
      indexEntriesOf st = some es →
      removeWallet c a pw st = (.ok (),
        (st.setItem indexKeyStr (Json.stringify (indexToJson
          (es.filter (fun e => e.address != a))))).removeItem (walletKeyStr a)) ∧
      (removeWallet c a pw st).2.getItem (walletKeyStr a) = none) := by
  refine ⟨fun c a pw st h => removeWallet_notfound c a pw st h,
    fun c a pw st v j hv hne hp ht hd =>
      removeWallet_badpw c a pw v j st hv hne hp ht hd, ?_⟩
  intro c a pw st v j es hv hne hp ht hd hio
  have h := removeWallet_success c a pw v j st es hv hne hp ht hd hio
  refine ⟨h, ?_⟩
  rw [h]
  show ((st.setItem indexKeyStr (Json.stringify (indexToJson
    (es.filter (fun e => e.address != a))))).removeItem
      (walletKeyStr a)).getItem (walletKeyStr a) = none
  rw [getItem_removeItem, if_pos rfl]

theorem claim5_remove_wallet_witness :
    (removeWallet cId wW.cosmosAddress "pw".toList stOkW).2.getItem
      (walletKeyStr wW.cosmosAddress) = none :=
  (claim5_remove_wallet.2.2 cId wW.cosmosAddress "pw".toList stOkW vOkW jOkW
    [⟨"name1".toList, wW.cosmosAddress⟩] rfl (stringify_ne_nil _)
    (Json.parse_stringify _) rfl rfl rfl).2

theorem decrypt_split (c : CryptoPrims) (salt iv body pw : Str)
    (hs : salt.length = 32) (hi : iv.length = 32) :
    decrypt c (salt ++ iv ++ body) pw =
      c.aesDecrypt body (c.pbkdf2 pw salt (keySize / 32) iterations) iv := by
  unfold decrypt
  rw [List.append_assoc, List.take_left' hs, List.drop_left' hs,
    List.take_left' hi]
  rw [show (64 : Nat) = 32 + 32 from rfl, ← List.drop_drop,
    List.drop_left' hs, List.drop_left' hi]

/-- Claim C6: the ciphertext at rest is exactly the concatenation of the
32-hex-character salt, the 32-hex-character iv and the AES ciphertext, the
key is derived by PBKDF2 from the password and the salt at the fixed
256-bit key size and 100 iterations, and decryption splits the first 32 and
next 32 characters back off as salt and iv, re-deriving the key from the
supplied password and the stored salt. -/
theorem claim6_cipher_layout (c : CryptoPrims) (salt iv msg pw pw2 body : Str)
    (hs : salt.length = 32) (hi : iv.length = 32) :
    encrypt c salt iv msg pw =
      salt ++ iv ++ c.aesEncrypt msg (c.pbkdf2 pw salt (keySize / 32) iterations) iv ∧
    (encrypt c salt iv msg pw).take 32 = salt ∧
    ((encrypt c salt iv msg pw).drop 32).take 32 = iv ∧
    keySize = 256 ∧ iterations = 100 ∧
    decrypt c (salt ++ iv ++ body) pw2 =
      c.aesDecrypt body (c.pbkdf2 pw2 salt (keySize / 32) iterations) iv := by
  refine ⟨rfl, ?_, ?_, rfl, rfl, decrypt_split c salt iv body pw2 hs hi⟩
  · unfold encrypt
    rw [List.append_assoc, List.take_left' hs]
  · unfold encrypt
    rw [List.append_assoc, List.drop_left' hs, List.take_left' hi]

theorem claim6_cipher_layout_witness :
    encrypt cId saltW ivW "msg".toList "pw".toList =
      saltW ++ ivW ++ cId.aesEncrypt "msg".toList
        (cId.pbkdf2 "pw".toList saltW (keySize / 32) iterations) ivW :=
  (claim6_cipher_layout cId saltW ivW "msg".toList "pw".toList "pw".toList
    [] rfl rfl).1

set_option maxRecDepth 1000000 in
/-- Claim C8: the address encoder is a pure function of the public-key
bytes, and on the repository test vector
`52FDFC072182654F163F5F0F9A621D729566C74D10037C4D7BBB0407D1E2C64981` it
produces exactly `cosmos1v3z3242hq7xrms35gu722v4nt8uux8nvug5gye`
(spec-modelled: the encoder is rebuilt from section 4.3 of the
specification — SHA-256, RIPEMD-160, bech32 with the `cosmos` prefix). -/
theorem claim8_address_vector :
    getCosmosAddress pkVec1 =
      "cosmos1v3z3242hq7xrms35gu722v4nt8uux8nvug5gye".toList ∧
    (∀ x y : List Nat, x = y → getCosmosAddress x = getCosmosAddress y) := by
  refine ⟨by decide, fun x y h => by rw [h]⟩

theorem claim8_address_vector_witness :
    getCosmosAddress pkVec1 = getCosmosAddress pkVec1 :=
  claim8_address_vector.2 pkVec1 pkVec1 rfl

/-- Claim C9: signing is deterministic — the ambient randomness capability
plays no part in the signature, because the per-signature nonce is derived
from the private key and the message digest alone, so two runs over the
same transaction and key yield the same 64 signature bytes (spec-modelled:
the signer is rebuilt from section 4.4 of the specification). -/
theorem claim9_sign_deterministic (P : EcdsaPrims) (tx : Json)
    (key : List Nat) (entropy1 entropy2 : Nat → Nat) :
    signWithPrivateKey P tx key entropy1 = signWithPrivateKey P tx key entropy2 ∧
    (signWithPrivateKey P tx key entropy1).length = 64 := by
  refine ⟨rfl, ?_⟩
  unfold signWithPrivateKey
  rw [List.length_append]
  simp [natToBytesBE]
